import Mathlib

/-!
Verification of the multi-source attribute resolution engine of
`iproperty_extract_spyder.py` against its natural-language specification.

The Python source is shallowly embedded: pure helper functions become Lean
functions over `List Char`/`String`, Python floats become `ℚ`, `None` becomes
`Option`, and per-resolver mutable collection state becomes explicit state
records.  HTML/JSON payload parsing (BeautifulSoup, `json.loads`) is external
to the resolution logic; resolvers are therefore embedded as functions of the
already-collected inputs (script-tag parse outcomes, DOM text lists, candidate
lists), exactly mirroring the cited source lines.
-/

/-! ## Generic string helpers (mirroring Python `str` and `re` operations) -/

/-- Python `str.lower()` restricted to ASCII (all relevant source tokens are ASCII). -/
def lowerStr (s : String) : String := String.mk (s.data.map Char.toLower)

/-- Python `str.upper()` restricted to ASCII. -/
def upperStr (s : String) : String := String.mk (s.data.map Char.toUpper)

/-- `leadMatch pat l` : `pat` is an initial segment of `l`. -/
def leadMatch : List Char → List Char → Bool
  | [], _ => true
  | _ :: _, [] => false
  | a :: as, b :: bs => a == b && leadMatch as bs

/-- `hasSubList pat l` : `pat` occurs as a contiguous sublist of `l`
(Python `pat in l`; the empty pattern always occurs). -/
def hasSubList (pat : List Char) : List Char → Bool
  | [] => leadMatch pat []
  | c :: cs => leadMatch pat (c :: cs) || hasSubList pat cs

/-- Python substring test `pat in s`. -/
def strHasSub (s pat : String) : Bool := hasSubList pat.data s.data

/-- Python `pat in s.lower()` for an ASCII-lowercase pattern. -/
def strHasSubIC (s pat : String) : Bool := strHasSub (lowerStr s) pat

/-- Python `s.startswith(pat)`. -/
def strStartsWith (s pat : String) : Bool := leadMatch pat.data s.data

/-- Python `str.strip()` (default whitespace strip). -/
def pyStrip (s : String) : String :=
  String.mk (((s.data.dropWhile Char.isWhitespace).reverse.dropWhile Char.isWhitespace).reverse)

/-- Split into maximal whitespace-free words (Python `str.split()`), accumulator form. -/
def wordsGo : List Char → List Char → List (List Char)
  | [], cur => if cur.isEmpty then [] else [cur.reverse]
  | c :: cs, cur =>
    if c.isWhitespace then
      if cur.isEmpty then wordsGo cs [] else cur.reverse :: wordsGo cs []
    else wordsGo cs (c :: cur)

/-- Python `str.split()` (split on whitespace runs, dropping empties). -/
def wordsOf (l : List Char) : List (List Char) := wordsGo l []

/-- Join words with single spaces. -/
def joinWords : List (List Char) → List Char
  | [] => []
  | [w] => w
  | w :: ws => w ++ ' ' :: joinWords ws

/-- Python `re.sub(r"\s+", " ", s).strip()` — collapse whitespace runs and trim. -/
def normSpaces (s : String) : String := String.mk (joinWords (wordsOf s.data))

/-- Collapse each whitespace run to a single space WITHOUT trimming
(Python `re.sub(r"\s+", " ", u)` alone). -/
def collapseWs : List Char → List Char
  | [] => []
  | [c] => if c.isWhitespace then [' '] else [c]
  | c :: d :: rest =>
    if c.isWhitespace && d.isWhitespace then collapseWs (d :: rest)
    else (if c.isWhitespace then ' ' else c) :: collapseWs (d :: rest)

/-! ## Numeric parsing and Python-style formatting -/

def digitVal (c : Char) : ℕ := c.toNat - '0'.toNat

def digitsToNat (l : List Char) : ℕ := l.foldl (fun a c => a * 10 + digitVal c) 0

/-- Value of a digit run followed by an optional `.`‑digit‑run fraction, as matched
by the regex `\d+(?:\.\d+)?` starting at the head (head is known to be a digit). -/
def readNumQ (l : List Char) : ℚ :=
  let intPart := l.takeWhile Char.isDigit
  let rest := l.dropWhile Char.isDigit
  match rest with
  | '.' :: r2 =>
    let frac := r2.takeWhile Char.isDigit
    if frac.isEmpty then (digitsToNat intPart : ℚ)
    else (digitsToNat intPart : ℚ) + (digitsToNat frac : ℚ) / (10 ^ frac.length : ℚ)
  | _ => (digitsToNat intPart : ℚ)

/-- Leftmost match of `(-?\d+(?:\.\d+)?)` (Python `re.search` in `_num`). -/
def numScan : List Char → Option ℚ
  | [] => none
  | c :: cs =>
    if c.isDigit then some (readNumQ (c :: cs))
    else if c == '-' then
      match cs with
      | d :: _ => if d.isDigit then some (-(readNumQ cs)) else numScan cs
      | [] => none
    else numScan cs

/-- Python `_num(s)`: drop commas, then first signed decimal number, else `None`. -/
def numOf (s : String) : Option ℚ := numScan (s.data.filter (fun c => !(c == ',')))

/-- Python `_parse_price_number` on a string: keep only `[0-9.]`, then `float(...)`
semantics (`None` when empty, more than one dot, or a lone dot). -/
def parsePriceNumber (s : String) : Option ℚ :=
  let kept := s.data.filter (fun c => c.isDigit || c == '.')
  if kept.isEmpty then none
  else if (kept.filter (fun c => c == '.')).length ≥ 2 then none
  else if kept == ['.'] then none
  else
    let ip := kept.takeWhile Char.isDigit
    let rest := kept.dropWhile Char.isDigit
    match rest with
    | '.' :: fr => some ((digitsToNat ip : ℚ) + (digitsToNat fr : ℚ) / (10 ^ fr.length : ℚ))
    | _ => some (digitsToNat ip : ℚ)

/-- Floor of a rational, computably. -/
def ratFloor (q : ℚ) : ℤ := Int.fdiv q.num (q.den : ℤ)

/-- Python `round()` (banker's rounding, half to even) transported to `ℚ`. -/
def pyRound (q : ℚ) : ℤ :=
  let f := ratFloor q
  let r := q - (f : ℚ)
  if r < 1/2 then f
  else if (1 : ℚ)/2 < r then f + 1
  else if f % 2 == 0 then f else f + 1

def digitChar (d : ℕ) : Char := Char.ofNat ('0'.toNat + d)

def natDigitsAux : ℕ → ℕ → List Char
  | 0, _ => []
  | fuel + 1, n => if n < 10 then [digitChar n] else natDigitsAux fuel (n / 10) ++ [digitChar (n % 10)]

/-- Decimal digit characters of a natural number. -/
def natDigits (n : ℕ) : List Char := natDigitsAux (n + 1) n

def natStr (n : ℕ) : String := String.mk (natDigits n)

/-- Insert thousands separators into a reversed digit list. -/
def group3 : List Char → List Char
  | a :: b :: c :: d :: rest => a :: b :: c :: ',' :: group3 (d :: rest)
  | l => l

/-- Python `f"{i:,}"` for an integer: comma-grouped decimal digits. -/
def intWithCommas (i : ℤ) : String :=
  let s := String.mk (group3 (natDigits i.natAbs).reverse).reverse
  if i < 0 then "-" ++ s else s

def twoDigits (n : ℕ) : String := String.mk [digitChar ((n / 10) % 10), digitChar (n % 10)]

/-- Python `s.rstrip("0").rstrip(".")`. -/
def stripTrailZeroDot (s : String) : String :=
  let l := s.data.reverse.dropWhile (fun c => c == '0')
  let l2 := l.dropWhile (fun c => c == '.')
  String.mk l2.reverse

/-- Python `_format_number`: near-integers as comma-grouped integers, otherwise
`f"{val:,.2f}"` with trailing zeros (and a dangling dot) stripped. -/
def formatNumber (val : ℚ) : String :=
  if |val - (pyRound val : ℚ)| < 1/1000000 then intWithCommas (pyRound val)
  else
    let n := pyRound (val * 100)
    stripTrailZeroDot
      ((if n < 0 then "-" else "") ++ intWithCommas (n.natAbs / 100 : ℤ) ++ "." ++ twoDigits (n.natAbs % 100))

/-- Python `f"{q:.2f}"` (two fixed decimals, no grouping). -/
def format2dp (q : ℚ) : String :=
  let n := pyRound (q * 100)
  (if n < 0 then "-" else "") ++ natStr (n.natAbs / 100) ++ "." ++ twoDigits (n.natAbs % 100)

/-- Python `str(float)` used only in an unreachable default of `add_psf_candidate`
(`raw_text` is nonempty at every call site); approximated on `ℚ`. -/
def pyFloatStr (q : ℚ) : String :=
  if q.den == 1 then (if q.num < 0 then "-" else "") ++ natStr q.num.natAbs ++ ".0"
  else formatNumber q

/-! ## Land size / land PSF resolver (`extract_land_size_psf`) -/

/-- `LAND_UNIT_TOKENS`, in the source's dict order. -/
def landUnitTokens : List (String × List String) :=
  [("sq ft", ["sq ft", "sqft", "square feet", "sq. ft", "sf", "ft²", "ft2", "ft"]),
   ("sqm", ["sq m", "sqm", "square metre", "square meter", "sq.m", "m²", "m2"]),
   ("acre", ["acre", "ac", "acres"]),
   ("hectare", ["hectare", "ha", "hectares"])]

/-- `_canonical_land_unit`: normalize a unit spelling and match it against the
token table (first canonical unit whose token occurs as a substring wins). -/
def canonicalLandUnit (unitTxt : String) : String :=
  if unitTxt.data.isEmpty then ""
  else
    let u := lowerStr (pyStrip unitTxt)
    if u.data.isEmpty then ""
    else
      let u2 := String.mk (collapseWs (u.data.map (fun c => if c == '.' || c == ',' then ' ' else c)))
      match (landUnitTokens.filter (fun p => p.2.any (fun tok => strHasSub u2 tok))).head? with
      | some p => p.1
      | none => ""

/-- `LAND_UNIT_FACTORS`. -/
def landUnitFactor (canon : String) : Option ℚ :=
  if canon == "sq ft" then some 1
  else if canon == "sqm" then some (107639/10000 : ℚ)
  else if canon == "acre" then some 43560
  else if canon == "hectare" then some 107639
  else none

/-- `_land_to_sqft`: `None` when the unit is not canonical, else value × factor. -/
def landToSqft (value : ℚ) (unit : String) : Option ℚ :=
  (landUnitFactor unit).map (fun f => value * f)

/-- `_is_sqm`. -/
def isSqmUnit (u : String) : Bool :=
  let ul := lowerStr u
  strHasSub ul "sqm" || strHasSub ul "m²" || strHasSub ul "sq.m" || strHasSub ul "square meter"

/-- `_area_to_sqft` for a present value. -/
def areaToSqft (value : ℚ) (unitTxt : String) : ℚ :=
  if isSqmUnit unitTxt then value * (107639/10000 : ℚ) else value

/-- A land-size candidate as appended by `add_land_candidate`. -/
structure LandCand where
  priority : ℕ
  explicit : Bool
  sqft : ℚ
  value : ℚ
  unit : String
  display : String
  source : String
deriving DecidableEq

/-- A land-PSF candidate as appended by `add_psf_candidate`. -/
structure PsfCand where
  priority : ℕ
  value : ℚ
  source : String
deriving DecidableEq

/-- The mutable collection state of `extract_land_size_psf`: `raw_hits`,
`seen_raw` (the dedup key set, kept separate because the resolver clears
`raw_hits` without clearing `seen_raw`), `land_candidates`, `psf_candidates`. -/
structure LandState where
  rawHits : List String
  seenRaw : List String
  lands : List LandCand
  psfs : List PsfCand
deriving DecidableEq

def emptyLandState : LandState := ⟨[], [], [], []⟩

/-- `add_raw`: whitespace-normalise, dedup case-insensitively via `seen_raw`. -/
def addRawLand (st : LandState) (text : String) : LandState :=
  if text.data.isEmpty then st
  else
    let cleaned := normSpaces text
    if cleaned.data.isEmpty then st
    else
      let key := lowerStr cleaned
      if st.seenRaw.contains key then st
      else { st with seenRaw := st.seenRaw ++ [key], rawHits := st.rawHits ++ [cleaned] }

/-- `add_land_candidate`.  The Python `value` may be a number or a string put
through `_num`; the embedding receives the numeric outcome (`none` = `None` /
unparseable). -/
def addLandCandidate (st : LandState) (value : Option ℚ) (unit : String)
    (rawText : String) (source : String) (priority : ℕ) (explicit : Bool) : LandState :=
  match value with
  | none => st
  | some num =>
    if num ≤ 0 then st
    else
      let canon := canonicalLandUnit unit
      if canon.data.isEmpty then st
      else
        match landToSqft num canon with
        | none => st
        | some sqft =>
          if sqft < 200 ∨ sqft > 10000000 then st
          else
            let display := formatNumber num ++ " " ++ canon
            let st2 := addRawLand st (if rawText.data.isEmpty then display else rawText)
            { st2 with lands := st2.lands ++ [⟨priority, explicit, sqft, num, canon, display, source⟩] }

/-- `add_psf_candidate`. -/
def addPsfCandidate (st : LandState) (value : Option ℚ) (rawText : String)
    (source : String) (priority : ℕ) : LandState :=
  match value with
  | none => st
  | some num =>
    if num ≤ 0 then st
    else if num < 1 ∨ num > 10000 then st
    else
      let st2 := addRawLand st (if rawText.data.isEmpty then pyFloatStr num ++ " psf" else rawText)
      { st2 with psfs := st2.psfs ++ [⟨priority, num, source⟩] }

/-- The flag `attr_land_field_found`.  In the source it is set exactly when a
land candidate with source `"attr.landArea"` or a PSF candidate whose source
starts with `"attr.landPSF"` is appended, so on the collected state it equals
this list predicate. -/
def attrLandFieldFound (st : LandState) : Bool :=
  st.lands.any (fun c => c.source == "attr.landArea")
    || st.psfs.any (fun c => strStartsWith c.source "attr.landPSF")

/-- The flag `explicit_label_found` (set exactly when an explicit land candidate
is appended). -/
def explicitLabelFound (st : LandState) : Bool := st.lands.any (fun c => c.explicit)

/-- First-seen maximum of a list by a key: replaces the current best only on a
strictly greater key, exactly like the Python
`if best is None or key > best_key` loops. -/
def pickMaxAux {α β : Type} (key : α → β) [LinearOrder β] (b : α) (l : List α) : α :=
  l.foldl (fun acc c => if key acc < key c then c else acc) b

def pickFirstMax {α β : Type} (key : α → β) [LinearOrder β] : List α → Option α
  | [] => none
  | c :: cs => some (pickMaxAux key c cs)

/-- Python tuple comparison key `(cand["priority"], 1 if cand["explicit"] else 0)`. -/
def landKey (c : LandCand) : ℕ ×ₗ Bool := toLex (c.priority, c.explicit)

/-- The `best_land` selection loop. -/
def bestLandOf (lands : List LandCand) : Option LandCand := pickFirstMax landKey lands

/-- The `best_psf` selection loop (strict priority comparison only). -/
def bestPsfOf (psfs : List PsfCand) : Option PsfCand := pickFirstMax (fun c => c.priority) psfs

def strataTypes : List String := ["condominium", "apartment", "serviced residence", "soho", "flat"]

/-- `built_up_sqft` as computed at the head of the arbitration phase. -/
def builtUpSqftOf (v : Option ℚ) (unit : String) : Option ℚ :=
  match v with
  | some x => if 0 < x then some (areaToSqft x unit) else none
  | none => none

/-- The arbitration tail of `extract_land_size_psf` (everything after candidate
collection): strata guard, built-up-echo guard, computed land PSF, winner
selection and final raw-hit clearing.  Returns
`(land_size, land_psf, raw_hits, land_source, land_psf_source)`. -/
def landResolve (st0 : LandState) (propertyType : String) (price : Option ℚ)
    (isRent : Bool) (builtUpValue : Option ℚ) (builtUpUnit : String) :
    String × String × List String × String × String :=
  let propType := lowerStr (pyStrip propertyType)
  let strata := strataTypes.contains propType
  let builtUpSqft := builtUpSqftOf builtUpValue builtUpUnit
  let bestLand0 := bestLandOf st0.lands
  let explicitPresent := attrLandFieldFound st0 || explicitLabelFound st0
  let step1 : LandState × Option LandCand :=
    if strata && !explicitPresent then
      ({ st0 with rawHits := [], lands := [], psfs := [] }, none)
    else (st0, bestLand0)
  let step2 : LandState × Option LandCand :=
    match step1.2, builtUpSqft with
    | some c, some b =>
      if b ≠ 0 ∧ strata = true ∧ |c.sqft - b| < 1 then
        ({ step1.1 with psfs := [], rawHits := [] }, none)
      else step1
    | _, _ => step1
  let st3 : LandState :=
    match step2.2, price with
    | some c, some p =>
      if isRent = false ∧ 0 < p ∧ c.sqft ≠ 0 then
        addPsfCandidate step2.1 (some (p / c.sqft))
          ("computed price=" ++ formatNumber p ++ " land_sqft=" ++ formatNumber c.sqft)
          "computed" 1
      else step2.1
    | _, _ => step2.1
  let bestPsf := bestPsfOf st3.psfs
  let landSize := match step2.2 with | some c => c.display | none => ""
  let landSource := match step2.2 with | some c => c.source | none => ""
  let landPsf := match bestPsf with | some c => format2dp c.value | none => ""
  let landPsfSource := match bestPsf with | some c => c.source | none => ""
  let raws := match step2.2, bestPsf with | none, none => [] | _, _ => st3.rawHits
  (landSize, landPsf, raws, landSource, landPsfSource)

/-! ## JSON model, `jget`, and script-tag JSON collection -/

mutual
inductive Json : Type where
  | null : Json
  | bool (b : Bool) : Json
  | num (q : ℚ) : Json
  | str (s : String) : Json
  | arr (items : JsonArr) : Json
  | obj (fields : JsonObj) : Json
inductive JsonArr : Type where
  | nil : JsonArr
  | cons (hd : Json) (tl : JsonArr) : JsonArr
inductive JsonObj : Type where
  | nil : JsonObj
  | cons (key : String) (val : Json) (tl : JsonObj) : JsonObj
end

/-- A path key: Python string or int. -/
inductive JKey : Type where
  | str (s : String) : JKey
  | idx (i : ℤ) : JKey

def jsonArrLen : JsonArr → ℕ
  | .nil => 0
  | .cons _ tl => jsonArrLen tl + 1

def jsonArrNth : JsonArr → ℕ → Option Json
  | .nil, _ => none
  | .cons h _, 0 => some h
  | .cons _ tl, n + 1 => jsonArrNth tl n

/-- Python list indexing `xs[i]` (negative indices wrap; out of range raises,
modelled as `none`). -/
def jsonArrGet (xs : JsonArr) (i : ℤ) : Option Json :=
  let n : ℤ := jsonArrLen xs
  if 0 ≤ i ∧ i < n then jsonArrNth xs i.toNat
  else if -n ≤ i ∧ i < 0 then jsonArrNth xs (i + n).toNat
  else none

/-- Python `dict.get(k)` on a JSON object (first binding wins). -/
def jsonObjGet : JsonObj → String → Option Json
  | .nil, _ => none
  | .cons k v tl, s => if k == s then some v else jsonObjGet tl s

/-- `jget`: nested-path lookup.  A missing key contributes Python `None`
(modelled as `Json.null`, indistinguishable from a stored JSON null); a type
mismatch or an out-of-range index returns `None` immediately. -/
def jget (cur : Json) : List JKey → Json
  | [] => cur
  | k :: ks =>
    match cur, k with
    | .arr xs, .idx i =>
      match jsonArrGet xs i with
      | some v => jget v ks
      | none => Json.null
    | .obj fs, .str s =>
      jget (match jsonObjGet fs s with | some v => v | none => Json.null) ks
    | .obj _, .idx _ => jget Json.null ks
    | _, _ => Json.null

/-- A `<script>` tag as seen by `_iter_script_jsons`: its attributes and the
outcome of strict JSON parsing of its text (`none` models empty text or a
`json.loads` failure). -/
structure ScriptTag where
  typeAttr : String
  idAttr : String
  parsed : Option Json

def jsonArrContainers : JsonArr → List Json
  | .nil => []
  | .cons h tl =>
    (match h with
     | .obj _ => [h]
     | .arr _ => [h]
     | _ => []) ++ jsonArrContainers tl

/-- The JSON roots one script tag contributes in `_iter_script_jsons`. -/
def scriptContrib (t : ScriptTag) : List Json :=
  if t.idAttr == "__NEXT_DATA__" || lowerStr t.typeAttr == "application/json"
      || lowerStr t.typeAttr == "application/ld+json" then
    match t.parsed with
    | none => []
    | some (.arr xs) => jsonArrContainers xs
    | some (.obj fs) => [Json.obj fs]
    | some _ => []
  else []

def iterScriptJsons (tags : List ScriptTag) : List Json :=
  (tags.map scriptContrib).flatten

/-! ## Bumi-lot resolver (`extract_bumi_lot`), flag component -/

/-- The negation patterns of `interpret_text`. -/
def bumiNeg (t : String) : Bool :=
  strHasSub t "non-bumi" || strHasSub t "non bumi" || strHasSub t "not bumi"
    || strHasSub t "no bumi"

/-- `interpret_text`. -/
def interpretText (text : String) : Option Bool :=
  let t := lowerStr (pyStrip text)
  if strHasSub t "bumi" && strHasSub t "lot" then
    if bumiNeg t then some false else some true
  else none

/-- `register` restricted to the flag: a `True` verdict always sets the flag,
a `False` verdict only fills an unset flag. -/
def registerFlag (f : Option Bool) : Option Bool → Option Bool
  | some true => some true
  | some false => match f with | none => some false | some b => some b
  | none => f

/-- The per-key branch of `walk` for keys `bumiLot`/`isBumiLot` (bool checked
before int/float, exactly as `isinstance` does). -/
def bumiKeyStep (f : Option Bool) (k : String) (v : Json) : Option Bool :=
  if lowerStr k == "bumilot" || lowerStr k == "isbumilot" then
    match v with
    | .bool b => registerFlag f (some b)
    | .num n => registerFlag f (some (decide (n ≠ 0)))
    | .str s => registerFlag f (interpretText s)
    | _ => f
  else f

mutual
/-- The recursive JSON `walk` of `extract_bumi_lot`, projected onto the flag
(the parallel `raw_hits` accumulation never feeds back into the flag). -/
def walkFlag (f : Option Bool) : Json → Option Bool
  | .obj kvs => walkFlagObj f kvs
  | .arr xs => walkFlagArr f xs
  | _ => f
def walkFlagObj (f : Option Bool) : JsonObj → Option Bool
  | .nil => f
  | .cons k v tl =>
    let f1 := bumiKeyStep f k v
    let f2 :=
      match v with
      | .obj kvs2 => walkFlagObj f1 kvs2
      | .arr xs2 => walkFlagArr f1 xs2
      | .str s => registerFlag f1 (interpretText s)
      | _ => f1
    walkFlagObj f2 tl
def walkFlagArr (f : Option Bool) : JsonArr → Option Bool
  | .nil => f
  | .cons h tl => walkFlagArr (walkFlag f h) tl
end

/-- The root loop: `walk(root)` per JSON root, breaking once the flag is a
definitive `True`. -/
def walkRoots (f : Option Bool) : List Json → Option Bool
  | [] => f
  | r :: rs =>
    let f1 := walkFlag f r
    if f1 == some true then f1 else walkRoots f1 rs

/-- `extract_bumi_lot`, flag component: JSON walk with short-circuit, then the
DOM chip/metatable fallback only when still unresolved, then rendering to
`"Yes"`/`"No"`/`""`. -/
def extractBumiFlag (roots : List Json) (domTexts : List String) : String :=
  let f := walkRoots none roots
  let f2 :=
    if f == none then domTexts.foldl (fun g t => registerFlag g (interpretText t)) f
    else f
  match f2 with
  | some true => "Yes"
  | some false => "No"
  | none => ""

mutual
/-- No bumi-related content: no `bumiLot`/`isBumiLot` key and no string that
`interpret_text` recognises. -/
def noBumiJson : Json → Bool
  | .obj kvs => noBumiObj kvs
  | .arr xs => noBumiArr xs
  | .str s => interpretText s == none
  | _ => true
def noBumiObj : JsonObj → Bool
  | .nil => true
  | .cons k v tl =>
    !(lowerStr k == "bumilot" || lowerStr k == "isbumilot") && noBumiJson v && noBumiObj tl
def noBumiArr : JsonArr → Bool
  | .nil => true
  | .cons h tl => noBumiJson h && noBumiArr tl
end

/-! ## Blank-sentinel predicate (`_is_blank`) -/

/-- `_is_blank` on `None`-or-string inputs (other Python values go through
`str(...)` first; the sentinel set itself is what the claim is about). -/
def isBlank (x : Option String) : Bool :=
  match x with
  | none => true
  | some s => ["", "-", "N/A", "n/a", "None"].contains (pyStrip s)

/-- Modelled from the spec: `isBlank` as the spec words it — `None`/absent,
empty string, `"-"`, case-insensitive `"N/A"`, and `"None"` are blank.  Used
only to compare the spec's wording with the implementation. -/
def isBlankSpecModel (x : Option String) : Bool :=
  match x with
  | none => true
  | some s =>
    let t := pyStrip s
    t == "" || t == "-" || lowerStr t == "n/a" || t == "None"

/-! ## Car-park resolver (`extract_car_park`) -/

/-- Python regex `\w` (ASCII relevant subset). -/
def isWordChar (c : Char) : Bool := c.isAlphanum || c == '_'

def bdryBefore (prev : Option Char) : Bool :=
  match prev with
  | none => true
  | some p => !isWordChar p

def bdryAfter : List Char → Bool
  | [] => true
  | c :: _ => !isWordChar c

/-- Match a literal and return the remainder. -/
def litMatch (pat : List Char) (cs : List Char) : Option (List Char) :=
  if leadMatch pat cs then some (cs.drop pat.length) else none

/-- `(?:s)?\b` after `park`, with the regex's one-step backtracking: prefer the
`s`, and without it the boundary between `k` and `s` cannot hold. -/
def cpParkTail (cs : List Char) : Option (List Char) :=
  match cs with
  | 's' :: rest => if bdryAfter rest then some rest else none
  | _ => if bdryAfter cs then some cs else none

def parkingWords : List String := ["lot", "lots", "bay", "bays", "space", "spaces", "slot", "slots"]

/-- `(lot|lots|bay|bays|space|spaces|slot|slots)\b` with alternation backtracking. -/
def parkingSuffixGo (cs : List Char) : List String → Option (List Char)
  | [] => none
  | p :: ps =>
    match litMatch p.data cs with
    | some rest => if bdryAfter rest then some rest else parkingSuffixGo cs ps
    | none => parkingSuffixGo cs ps

/-- The unit alternation of `CAR_PARK_RE` after the digits and whitespace
(`car\s*park(?:s)?` subsumes `carpark(?:s)?`; a text starting with `car`
can never match the `parking…` alternative and vice versa). -/
def cpSuffix (cs : List Char) : Option (List Char) :=
  match litMatch ['c', 'a', 'r'] cs with
  | some r1 =>
    match litMatch ['p', 'a', 'r', 'k'] (r1.dropWhile Char.isWhitespace) with
    | some r2 => cpParkTail r2
    | none => none
  | none =>
    match litMatch ['p', 'a', 'r', 'k', 'i', 'n', 'g'] cs with
    | some r1 => parkingSuffixGo (r1.dropWhile Char.isWhitespace) parkingWords
    | none => none

/-- Try `CAR_PARK_RE` at the current position; on success return the captured
integer. -/
def tryCarParkAt (prev : Option Char) (cs : List Char) : Option ℕ :=
  match cs with
  | c :: _ =>
    if bdryBefore prev && c.isDigit then
      let ds := cs.takeWhile Char.isDigit
      let rest := cs.dropWhile Char.isDigit
      match cpSuffix (rest.dropWhile Char.isWhitespace) with
      | some _ => some (digitsToNat ds)
      | none => none
    else none
  | [] => none

/-- `CAR_PARK_RE.finditer`: all captured integers, left to right.  Single-step
scanning coincides with `finditer`'s jump-past-the-match stepping for this
pattern: a match starts with a digit at a word boundary, and inside a match's
span every digit is preceded by a word character while the unit words contain
no digits, so no match can begin strictly inside another. -/
def carParkScanGo (prev : Option Char) : List Char → List ℕ
  | [] => []
  | c :: rest =>
    match tryCarParkAt prev (c :: rest) with
    | some n => n :: carParkScanGo (some c) rest
    | none => carParkScanGo (some c) rest

/-- All integers captured by `CAR_PARK_RE` in a value text (case-insensitive). -/
def carParkInts (val : String) : List ℕ := carParkScanGo none (lowerStr val).data

/-- `extract_car_park`, given the metatable value strings captured by the
`"(?:value|valueText|text)"` regex.  Returns `(car_park, best_raw, raw_list)`. -/
def extractCarPark (values : List String) : Option ℕ × String × List String :=
  let rawList := (values.map pyStrip).filter (fun val =>
    !(strHasSubIC val "psf" || strHasSubIC val "floor" || strHasSubIC val "built"
        || strHasSubIC val "title")
      && !(carParkInts val).isEmpty)
  let bestRaw := (rawList.getLast?).getD ""
  let maxN := rawList.foldl (fun m r => (carParkInts r).foldl max m) 0
  ((if maxN > 0 then some maxN else none), bestRaw, rawList)

/-! ## Price resolver (`extract_price`) -/

structure PriceCand where
  amount : ℚ
  currency : String
  source : String
  priority : ℕ
  rentHint : Bool
  order : ℕ
deriving DecidableEq

structure PriceState where
  cands : List PriceCand
  order : ℕ
deriving DecidableEq

def emptyPriceState : PriceState := ⟨[], 0⟩

/-- `_coerce_price_value` for a present number. -/
def coercePriceValue (num : ℚ) : ℚ :=
  if |num - (pyRound num : ℚ)| < 1/1000000 then (pyRound num : ℚ) else num

/-- `extract_price.add_candidate`.  (`raw_text` is truncated in the source but
never stored, so it is omitted here.) -/
def addPriceCandidate (isRent : Bool) (st : PriceState) (amount : Option ℚ)
    (currency source : String) (priority : ℕ) (rentHint : Bool) : PriceState :=
  match amount with
  | none => st
  | some a =>
    let cur0 := upperStr currency
    let cur := if cur0 == "RM" then "MYR" else cur0
    if !cur.data.isEmpty && cur != "MYR" then st
    else
      let value := coercePriceValue a
      if value ≤ 0 then st
      else if isRent = true ∧ value > 100000 then st
      else if isRent = false ∧ value < 10000 then st
      else
        { cands := st.cands ++ [⟨value, "MYR", source, priority, rentHint, st.order⟩],
          order := st.order + 1 }

/-- One position of `RENT_HINT_RE` = `(/mo\b|/month\b|per\s+month|monthly)`. -/
def rentHintAt (cs : List Char) : Bool :=
  (match litMatch ['/', 'm', 'o'] cs with
   | some rest => bdryAfter rest
   | none => false)
  || (match litMatch ['/', 'm', 'o', 'n', 't', 'h'] cs with
      | some rest => bdryAfter rest
      | none => false)
  || (match litMatch ['p', 'e', 'r'] cs with
      | some rest =>
        (match rest with
         | c :: _ => c.isWhitespace && leadMatch ['m', 'o', 'n', 't', 'h'] (rest.dropWhile Char.isWhitespace)
         | [] => false)
      | none => false)
  || leadMatch ['m', 'o', 'n', 't', 'h', 'l', 'y'] cs

def rentHintScan : List Char → Bool
  | [] => false
  | c :: rest => rentHintAt (c :: rest) || rentHintScan rest

/-- `RENT_HINT_RE.search` (case-insensitive). -/
def rentHintRe (s : String) : Bool := rentHintScan (lowerStr s).data

/-- The character class `[0-9,\.]` of `HEAD_PRICE_RE`. -/
def amtChar (c : Char) : Bool := c.isDigit || c == ',' || c == '.'

/-- The group captured by `HEAD_PRICE_RE` = `RM\s*([0-9][0-9,\.]*)` at the
current position (case-insensitive on `RM`), put through
`_parse_price_number` (unparseable groups are Python `None` and dropped). -/
def headPriceAt : List Char → List ℚ
  | [] => []
  | c :: rest =>
    if c == 'R' || c == 'r' then
      match rest with
      | m :: r2 =>
        if m == 'M' || m == 'm' then
          let r3 := r2.dropWhile Char.isWhitespace
          match r3 with
          | d :: _ =>
            if d.isDigit then
              match parsePriceNumber (String.mk (r3.takeWhile amtChar)) with
              | some q => [q]
              | none => []
            else []
          | [] => []
        else []
      | [] => []
    else []

/-- `HEAD_PRICE_RE.finditer` + `_parse_price_number` on each captured group.
Single-step scanning coincides with `finditer`'s jump-past-the-match stepping
for this pattern: every match starts with `R`/`r` and its consumed span
(`RM`, whitespace, `[0-9,\.]` characters) contains no later `R`, so no match
can begin strictly inside another. -/
def headPriceGo : List Char → List ℚ
  | [] => []
  | c :: rest => headPriceAt (c :: rest) ++ headPriceGo rest

def headPriceAmounts (s : String) : List ℚ := headPriceGo s.data

def domSkipTerms : List String := ["psf", "psm", "per sq", "sqft", "sqm"]

/-- The body of the DOM-headline loop of `extract_price` (lines 513–535):
skip PSF/PSM/per-square-unit and deposit/booking texts, extract all RM
amounts, pick the first for a rent page and the largest for a sale page, and
feed the result to `add_candidate` at priority 2. -/
def processDomText (isRent : Bool) (st : PriceState) (txt : String) : PriceState :=
  if txt.data.isEmpty then st
  else
    let lower := lowerStr txt
    if domSkipTerms.any (fun term => strHasSub lower term) then st
    else if strHasSub lower "deposit" || strHasSub lower "booking" then st
    else
      let rentHint := rentHintRe txt || strHasSub lower "for rent"
      let amounts := (headPriceAmounts txt).filter (fun a => a ≠ 0)
      match amounts with
      | [] => st
      | a0 :: _ =>
        let pick := if isRent then a0 else amounts.foldl max a0
        addPriceCandidate isRent st (some pick) "MYR" "dom.rm" 2 rentHint

/-- First-seen minimum of a list by a key (stable-sort head): replaces the
current best only on a strictly smaller key. -/
def pickMinAux {α β : Type} (key : α → β) [LinearOrder β] (b : α) (l : List α) : α :=
  l.foldl (fun acc c => if key c < key acc then c else acc) b

def pickFirstMin {α β : Type} (key : α → β) [LinearOrder β] : List α → Option α
  | [] => none
  | c :: cs => some (pickMinAux key c cs)

/-- The final candidate selection of `extract_price` (lines 564–588): sort by
`(-priority, order)`, group by priority, and decide inside the top group —
for rent pages the smallest rent-hinted amount when one exists, for sale
pages at DOM priority the largest amount, otherwise first discovery order. -/
def selectPrice (isRent : Bool) (cands : List PriceCand) : String × Option ℚ × String :=
  match cands with
  | [] => ("", none, "")
  | c0 :: rest =>
    let all := c0 :: rest
    let maxP := all.foldl (fun m c => max m c.priority) 0
    let group := all.filter (fun c => c.priority == maxP)
    let rentGroup := group.filter (fun c => c.rentHint)
    if isRent && !rentGroup.isEmpty then
      match pickFirstMin (fun c => (toLex (c.amount, c.order) : ℚ ×ₗ ℕ)) rentGroup with
      | some best => (best.currency, some best.amount, best.source)
      | none => ("", none, "")
    else if !isRent && maxP == 2 then
      match pickFirstMin (fun c => (toLex (-c.amount, c.order) : ℚ ×ₗ ℕ)) group with
      | some best => (best.currency, some best.amount, best.source)
      | none => ("", none, "")
    else
      match pickFirstMin (fun c => c.order) group with
      | some best => (best.currency, some best.amount, best.source)
      | none => ("", none, "")

/-- The DOM-headline collection loop over the deduplicated headline texts. -/
def collectDomCands (isRent : Bool) (texts : List String) : PriceState :=
  texts.foldl (processDomText isRent) emptyPriceState

/-- `extract_price` for a page on which the flight/JSON-LD/head-title phases
yield no candidate and only DOM headline texts are available. -/
def extractPriceDom (isRent : Bool) (texts : List String) : String × Option ℚ × String :=
  selectPrice isRent (collectDomCands isRent texts).cands

/-! ## Built-up PSF derivation (`run`, lines 2253–2256) -/

/-- Python `round(x, 2)` on `ℚ`. -/
def round2 (q : ℚ) : ℚ := (pyRound (q * 100) : ℚ) / 100

/-- The built-up-PSF derivation in `run`: only when no direct PSF field
resolved, the page is not a rental, and price and built-up value are truthy;
gated by the area band [400, 20000] (in sq ft) and price band
[10000, 50000000]. -/
def deriveBuiltupPsf (psf0 : Option ℚ) (isRent : Bool) (price : Option ℚ)
    (bVal : Option ℚ) (bUnit : String) : Option ℚ :=
  match psf0 with
  | some v => some v
  | none =>
    if isRent then none
    else
      match price, bVal with
      | some p, some b =>
        if p ≠ 0 ∧ b ≠ 0 then
          let area := areaToSqft b bUnit
          if area ≠ 0 ∧ 400 ≤ area ∧ area ≤ 20000 ∧ 10000 ≤ p ∧ p ≤ 50000000 then
            some (round2 (p / area))
          else none
        else none
      | _, _ => none

/-! ## Agent-name resolver (`extract_agent_name`) -/

/-- Replace every run of `|`/`•` by a single space
(Python `re.sub(r"[|•]+", " ", s)`). -/
def replacePipeRuns : List Char → List Char
  | [] => []
  | [c] => if c == '|' || c == '•' then [' '] else [c]
  | c :: d :: rest =>
    if (c == '|' || c == '•') && (d == '|' || d == '•') then replacePipeRuns (d :: rest)
    else (if c == '|' || c == '•' then ' ' else c) :: replacePipeRuns (d :: rest)

/-- Python `s.strip(chars)`. -/
def stripEdgeChars (chars : List Char) (l : List Char) : List Char :=
  ((l.dropWhile (fun c => chars.contains c)).reverse.dropWhile (fun c => chars.contains c)).reverse

/-- `re.search(r"private\s+advertiser", s, re.I)` on an already lowered text. -/
def privAdvScan : List Char → Bool
  | [] => false
  | c :: rest =>
    (match litMatch ['p', 'r', 'i', 'v', 'a', 't', 'e'] (c :: rest) with
     | some r =>
       (match r with
        | w :: _ => w.isWhitespace && leadMatch ['a', 'd', 'v', 'e', 'r', 't', 'i', 's', 'e', 'r'] (r.dropWhile Char.isWhitespace)
        | [] => false)
     | none => false)
    || privAdvScan rest

/-- Word-boundary search of a single token (`\btok\b`, case-insensitive). -/
def wordBdryGo (tok : List Char) (prev : Option Char) : List Char → Bool
  | [] => false
  | c :: rest =>
    (bdryBefore prev && leadMatch tok (c :: rest) && bdryAfter ((c :: rest).drop tok.length))
    || wordBdryGo tok (some c) rest

def wordBdryFind (s : String) (tok : String) : Bool :=
  wordBdryGo tok.data none (lowerStr s).data

def companyWords : List String :=
  ["realty", "properties", "property", "estate", "sdn", "bhd", "holdings",
   "development", "agency", "group", "team"]

/-- Python `w.capitalize()`: first char uppercased, rest lowercased. -/
def pyCapitalize : List Char → List Char
  | [] => []
  | c :: rest => Char.toUpper c :: rest.map Char.toLower

/-- Python `w.isupper()` on ASCII: some cased char, all cased chars uppercase. -/
def pyIsUpper (w : List Char) : Bool :=
  w.any Char.isAlpha && w.all (fun c => !c.isAlpha || c.isUpper)

/-- `extract_agent_name._normalize_candidate`: the plausibility filter and
title-casing applied to EVERY candidate (returns `""` for a rejected name). -/
def normalizeAgentCandidate (name : String) : String :=
  let s1 := normSpaces name
  if s1.data.isEmpty then ""
  else
    let s := String.mk (stripEdgeChars [' ', ',', '-', '|', '•'] (replacePipeRuns s1.data))
    if !(3 ≤ s.data.length ∧ s.data.length ≤ 40 : Bool) then ""
    else if privAdvScan (lowerStr s).data then ""
    else if companyWords.any (fun tok => wordBdryFind s tok) then ""
    else if s.data.any Char.isDigit then ""
    else
      let ws := wordsOf s.data
      if ws.length < 2 ∨ ws.length > 4 then ""
      else
        let letters := (s.data.filter Char.isAlpha).length
        if letters < max 3 ((3 * s.data.length) / 5) then ""
        else
          String.mk (joinWords (ws.map (fun w =>
            if pyIsUpper w && w.length ≤ 4 then w else pyCapitalize w)))

structure AgentCand where
  priority : ℕ
  source : String
  value : String
  order : ℕ
deriving DecidableEq

structure AgentState where
  cands : List AgentCand
  seen : List (String × String)
deriving DecidableEq

def emptyAgentState : AgentState := ⟨[], []⟩

/-- The `PRIORITY` table of `extract_agent_name` (`.get(source, 0)`). -/
def agentPriorityOf (source : String) : ℕ :=
  if source == "contactAgentData" then 4
  else if source == "flight" then 3
  else if source == "dom" then 2
  else if source == "title" then 1
  else 0

/-- `extract_agent_name.add_candidate`: every candidate — whatever its source —
goes through `_normalize_candidate`, then is deduplicated by
(lowercased value, source). -/
def addAgentCandidate (st : AgentState) (name source : String) : AgentState :=
  let norm := normalizeAgentCandidate name
  if norm.data.isEmpty then st
  else
    let key := (lowerStr norm, source)
    if st.seen.contains key then st
    else
      { cands := st.cands ++ [⟨agentPriorityOf source, source, norm, st.cands.length⟩],
        seen := st.seen ++ [key] }

/-- The winner loop of `extract_agent_name` (strict priority comparison,
first-seen wins ties). -/
def pickAgentBest (cands : List AgentCand) : Option AgentCand :=
  pickFirstMax (fun c => c.priority) cands

/-! ## Helper lemmas: first-seen maximum / minimum selection -/

theorem pickMaxAux_mem {α β : Type} (key : α → β) [LinearOrder β] :
    ∀ (l : List α) (b : α), pickMaxAux key b l ∈ b :: l := by
  intro l
  induction l with
  | nil => intro b; simp [pickMaxAux]
  | cons c cs ih =>
    intro b
    have hstep : pickMaxAux key b (c :: cs) = pickMaxAux key (if key b < key c then c else b) cs := rfl
    rw [hstep]
    rcases List.mem_cons.mp (ih (if key b < key c then c else b)) with h | h
    · rw [h]
      by_cases hc : key b < key c
      · rw [if_pos hc]; simp
      · rw [if_neg hc]; simp
    · exact List.mem_cons_of_mem _ (List.mem_cons_of_mem _ h)

theorem pickMaxAux_le {α β : Type} (key : α → β) [LinearOrder β] :
    ∀ (l : List α) (b : α), ∀ x ∈ b :: l, key x ≤ key (pickMaxAux key b l) := by
  intro l
  induction l with
  | nil =>
    intro b x hx
    have hxb : x = b := by simpa using hx
    subst hxb
    simp [pickMaxAux]
  | cons c cs ih =>
    intro b x hx
    have hstep : pickMaxAux key b (c :: cs) = pickMaxAux key (if key b < key c then c else b) cs := rfl
    rw [hstep]
    have hb_le : key b ≤ key (if key b < key c then c else b) := by
      by_cases hc : key b < key c
      · rw [if_pos hc]; exact le_of_lt hc
      · rw [if_neg hc]
    have hc_le : key c ≤ key (if key b < key c then c else b) := by
      by_cases hc : key b < key c
      · rw [if_pos hc]
      · rw [if_neg hc]; exact le_of_not_lt hc
    have hhead : key (if key b < key c then c else b) ≤ key (pickMaxAux key (if key b < key c then c else b) cs) :=
      ih _ _ (List.mem_cons_self _ _)
    rcases List.mem_cons.mp hx with h | hx2
    · subst h; exact le_trans hb_le hhead
    · rcases List.mem_cons.mp hx2 with h | h
      · subst h; exact le_trans hc_le hhead
      · exact ih _ x (List.mem_cons_of_mem _ h)

theorem pickFirstMax_mem {α β : Type} (key : α → β) [LinearOrder β] {l : List α} {w : α}
    (h : pickFirstMax key l = some w) : w ∈ l := by
  cases l with
  | nil => simp [pickFirstMax] at h
  | cons c cs =>
    have hw : pickMaxAux key c cs = w := by simpa [pickFirstMax] using h
    rw [← hw]
    exact pickMaxAux_mem key cs c

theorem pickFirstMax_le {α β : Type} (key : α → β) [LinearOrder β] {l : List α} {w : α}
    (h : pickFirstMax key l = some w) : ∀ x ∈ l, key x ≤ key w := by
  cases l with
  | nil => simp [pickFirstMax] at h
  | cons c cs =>
    have hw : pickMaxAux key c cs = w := by simpa [pickFirstMax] using h
    intro x hx
    rw [← hw]
    exact pickMaxAux_le key cs c x hx

theorem pickFirstMax_of_ne_nil {α β : Type} (key : α → β) [LinearOrder β] {l : List α}
    (h : l ≠ []) : ∃ w, pickFirstMax key l = some w := by
  cases l with
  | nil => exact absurd rfl h
  | cons c cs => exact ⟨pickMaxAux key c cs, rfl⟩

theorem pickMaxAux_all_le {α β : Type} (key : α → β) [LinearOrder β] :
    ∀ (l : List α) (b : α), (∀ x ∈ l, key x ≤ key b) → pickMaxAux key b l = b := by
  intro l
  induction l with
  | nil => intro b _; rfl
  | cons c cs ih =>
    intro b hall
    have hc : key c ≤ key b := hall c (List.mem_cons_self _ _)
    have hstep : pickMaxAux key b (c :: cs) = pickMaxAux key (if key b < key c then c else b) cs := rfl
    rw [hstep, if_neg (not_lt.mpr hc)]
    exact ih b (fun x hx => hall x (List.mem_cons_of_mem _ hx))

theorem pickFirstMax_head {α β : Type} (key : α → β) [LinearOrder β] {l : List α} {b : α}
    (hall : ∀ x ∈ l, key x ≤ key b) : pickFirstMax key (b :: l) = some b :=
  congrArg some (pickMaxAux_all_le key l b hall)

theorem pickFirstMax_append_le {α β : Type} (key : α → β) [LinearOrder β] {l : List α} {w c : α}
    (h : pickFirstMax key l = some w) (hc : key c ≤ key w) :
    pickFirstMax key (l ++ [c]) = some w := by
  cases l with
  | nil => simp [pickFirstMax] at h
  | cons a as =>
    have hw : pickMaxAux key a as = w := by simpa [pickFirstMax] using h
    have hgoal : pickMaxAux key a (as ++ [c]) = w := by
      show List.foldl (fun acc x => if key acc < key x then x else acc) a (as ++ [c]) = w
      rw [List.foldl_append]
      simp only [List.foldl_cons, List.foldl_nil]
      have hfold : List.foldl (fun acc x => if key acc < key x then x else acc) a as = w := hw
      rw [hfold, if_neg (not_lt.mpr hc)]
    show some (pickMaxAux key a (as ++ [c])) = some w
    rw [hgoal]

theorem pickMinAux_mem {α β : Type} (key : α → β) [LinearOrder β] :
    ∀ (l : List α) (b : α), pickMinAux key b l ∈ b :: l := by
  intro l
  induction l with
  | nil => intro b; simp [pickMinAux]
  | cons c cs ih =>
    intro b
    have hstep : pickMinAux key b (c :: cs) = pickMinAux key (if key c < key b then c else b) cs := rfl
    rw [hstep]
    rcases List.mem_cons.mp (ih (if key c < key b then c else b)) with h | h
    · rw [h]
      by_cases hc : key c < key b
      · rw [if_pos hc]; simp
      · rw [if_neg hc]; simp
    · exact List.mem_cons_of_mem _ (List.mem_cons_of_mem _ h)

theorem pickMinAux_le {α β : Type} (key : α → β) [LinearOrder β] :
    ∀ (l : List α) (b : α), ∀ x ∈ b :: l, key (pickMinAux key b l) ≤ key x := by
  intro l
  induction l with
  | nil =>
    intro b x hx
    have hxb : x = b := by simpa using hx
    subst hxb
    simp [pickMinAux]
  | cons c cs ih =>
    intro b x hx
    have hstep : pickMinAux key b (c :: cs) = pickMinAux key (if key c < key b then c else b) cs := rfl
    rw [hstep]
    have hb_le : key (if key c < key b then c else b) ≤ key b := by
      by_cases hc : key c < key b
      · rw [if_pos hc]; exact le_of_lt hc
      · rw [if_neg hc]
    have hc_le : key (if key c < key b then c else b) ≤ key c := by
      by_cases hc : key c < key b
      · rw [if_pos hc]
      · rw [if_neg hc]; exact le_of_not_lt hc
    have hhead : key (pickMinAux key (if key c < key b then c else b) cs) ≤ key (if key c < key b then c else b) :=
      ih _ _ (List.mem_cons_self _ _)
    rcases List.mem_cons.mp hx with h | hx2
    · subst h; exact le_trans hhead hb_le
    · rcases List.mem_cons.mp hx2 with h | h
      · subst h; exact le_trans hhead hc_le
      · exact ih _ x (List.mem_cons_of_mem _ h)

theorem pickFirstMin_mem {α β : Type} (key : α → β) [LinearOrder β] {l : List α} {w : α}
    (h : pickFirstMin key l = some w) : w ∈ l := by
  cases l with
  | nil => simp [pickFirstMin] at h
  | cons c cs =>
    have hw : pickMinAux key c cs = w := by simpa [pickFirstMin] using h
    rw [← hw]
    exact pickMinAux_mem key cs c

theorem pickFirstMin_le {α β : Type} (key : α → β) [LinearOrder β] {l : List α} {w : α}
    (h : pickFirstMin key l = some w) : ∀ x ∈ l, key w ≤ key x := by
  cases l with
  | nil => simp [pickFirstMin] at h
  | cons c cs =>
    have hw : pickMinAux key c cs = w := by simpa [pickFirstMin] using h
    intro x hx
    rw [← hw]
    exact pickMinAux_le key cs c x hx

theorem pickFirstMin_of_ne_nil {α β : Type} (key : α → β) [LinearOrder β] {l : List α}
    (h : l ≠ []) : ∃ w, pickFirstMin key l = some w := by
  cases l with
  | nil => exact absurd rfl h
  | cons c cs => exact ⟨pickMinAux key c cs, rfl⟩

/-! ## Helper lemmas: folded maxima (car-park resolver) -/

theorem le_foldl_max_init : ∀ (l : List ℕ) (a : ℕ), a ≤ l.foldl max a := by
  intro l
  induction l with
  | nil => intro a; exact le_refl a
  | cons c cs ih =>
    intro a
    exact le_trans (le_max_left a c) (ih (max a c))

theorem le_foldl_max_mem : ∀ (l : List ℕ) (a : ℕ), ∀ x ∈ l, x ≤ l.foldl max a := by
  intro l
  induction l with
  | nil => intro a x hx; simp at hx
  | cons c cs ih =>
    intro a x hx
    rcases List.mem_cons.mp hx with h | h
    · subst h
      exact le_trans (le_max_right a x) (le_foldl_max_init cs (max a x))
    · exact ih (max a c) x h

theorem foldl_max_eq_or_mem : ∀ (l : List ℕ) (a : ℕ), l.foldl max a = a ∨ l.foldl max a ∈ l := by
  intro l
  induction l with
  | nil => intro a; exact Or.inl rfl
  | cons c cs ih =>
    intro a
    rcases ih (max a c) with h | h
    · rcases max_choice a c with hm | hm
      · exact Or.inl (by rw [List.foldl_cons, h, hm])
      · exact Or.inr (by rw [List.foldl_cons, h, hm]; exact List.mem_cons_self _ _)
    · exact Or.inr (List.mem_cons_of_mem _ h)

/-- The nested fold of `extract_car_park` computing the maximum matched integer. -/
def nestedMax (f : String → List ℕ) (l : List String) (a : ℕ) : ℕ :=
  l.foldl (fun m r => (f r).foldl max m) a

theorem nestedMax_le_init (f : String → List ℕ) :
    ∀ (l : List String) (a : ℕ), a ≤ nestedMax f l a := by
  intro l
  induction l with
  | nil => intro a; exact le_refl a
  | cons v vs ih =>
    intro a
    exact le_trans (le_foldl_max_init (f v) a) (ih _)

theorem nestedMax_mem_le (f : String → List ℕ) :
    ∀ (l : List String) (a : ℕ), ∀ v ∈ l, ∀ n ∈ f v, n ≤ nestedMax f l a := by
  intro l
  induction l with
  | nil => intro a v hv; simp at hv
  | cons w ws ih =>
    intro a v hv n hn
    rcases List.mem_cons.mp hv with h | h
    · subst h
      exact le_trans (le_foldl_max_mem (f v) a n hn) (nestedMax_le_init f ws _)
    · exact ih _ v h n hn

theorem nestedMax_eq_or_attained (f : String → List ℕ) :
    ∀ (l : List String) (a : ℕ), nestedMax f l a = a ∨ ∃ v ∈ l, nestedMax f l a ∈ f v := by
  intro l
  induction l with
  | nil => intro a; exact Or.inl rfl
  | cons w ws ih =>
    intro a
    rcases ih ((f w).foldl max a) with h | h
    · rcases foldl_max_eq_or_mem (f w) a with h2 | h2
      · exact Or.inl (by rw [nestedMax, List.foldl_cons] at *; rw [h, h2])
      · refine Or.inr ⟨w, List.mem_cons_self _ _, ?_⟩
        rw [nestedMax, List.foldl_cons]
        show nestedMax f ws ((f w).foldl max a) ∈ f w
        rw [h]
        exact h2
    · rcases h with ⟨v, hv, hmem⟩
      exact Or.inr ⟨v, List.mem_cons_of_mem _ hv, hmem⟩

/-! ## Helper lemmas: bumi-lot walk -/

theorem registerFlag_true (v : Option Bool) : registerFlag (some true) v = some true := by
  cases v with
  | none => rfl
  | some b => cases b <;> rfl

theorem bumiKeyStep_true (k : String) (v : Json) : bumiKeyStep (some true) k v = some true := by
  unfold bumiKeyStep
  split
  · cases v <;> first | rfl | apply registerFlag_true
  · rfl

theorem bumiKeyStep_skip (f : Option Bool) (k : String) (v : Json)
    (h : (lowerStr k == "bumilot" || lowerStr k == "isbumilot") = false) :
    bumiKeyStep f k v = f := by
  unfold bumiKeyStep
  rw [h]
  rfl

mutual
theorem walkFlag_true : ∀ (j : Json), walkFlag (some true) j = some true
  | .null => rfl
  | .bool _ => rfl
  | .num _ => rfl
  | .str _ => rfl
  | .arr xs => walkFlagArr_true xs
  | .obj kvs => walkFlagObj_true kvs
theorem walkFlagObj_true : ∀ (kvs : JsonObj), walkFlagObj (some true) kvs = some true
  | .nil => rfl
  | .cons k v tl => by
    cases v with
    | null =>
      show walkFlagObj (bumiKeyStep (some true) k .null) tl = some true
      rw [bumiKeyStep_true]
      exact walkFlagObj_true tl
    | bool b =>
      show walkFlagObj (bumiKeyStep (some true) k (.bool b)) tl = some true
      rw [bumiKeyStep_true]
      exact walkFlagObj_true tl
    | num q =>
      show walkFlagObj (bumiKeyStep (some true) k (.num q)) tl = some true
      rw [bumiKeyStep_true]
      exact walkFlagObj_true tl
    | str s =>
      show walkFlagObj (registerFlag (bumiKeyStep (some true) k (.str s)) (interpretText s)) tl = some true
      rw [bumiKeyStep_true, registerFlag_true]
      exact walkFlagObj_true tl
    | arr xs2 =>
      show walkFlagObj (walkFlagArr (bumiKeyStep (some true) k (.arr xs2)) xs2) tl = some true
      rw [bumiKeyStep_true, walkFlagArr_true xs2]
      exact walkFlagObj_true tl
    | obj kvs2 =>
      show walkFlagObj (walkFlagObj (bumiKeyStep (some true) k (.obj kvs2)) kvs2) tl = some true
      rw [bumiKeyStep_true, walkFlagObj_true kvs2]
      exact walkFlagObj_true tl
theorem walkFlagArr_true : ∀ (xs : JsonArr), walkFlagArr (some true) xs = some true
  | .nil => rfl
  | .cons h tl => by
    show walkFlagArr (walkFlag (some true) h) tl = some true
    rw [walkFlag_true h]
    exact walkFlagArr_true tl
end

mutual
theorem walkFlag_nobumi : ∀ (j : Json) (f : Option Bool), noBumiJson j = true → walkFlag f j = f
  | .null, f, _ => rfl
  | .bool _, f, _ => rfl
  | .num _, f, _ => rfl
  | .str _, f, _ => rfl
  | .arr xs, f, h => walkFlagArr_nobumi xs f h
  | .obj kvs, f, h => walkFlagObj_nobumi kvs f h
theorem walkFlagObj_nobumi : ∀ (kvs : JsonObj) (f : Option Bool), noBumiObj kvs = true → walkFlagObj f kvs = f
  | .nil, f, _ => rfl
  | .cons k v tl, f, h => by
    have h1 : (!(lowerStr k == "bumilot" || lowerStr k == "isbumilot")) = true
        ∧ noBumiJson v = true ∧ noBumiObj tl = true := by
      have := h
      simp only [noBumiObj, Bool.and_eq_true] at this
      exact ⟨this.1.1, this.1.2, this.2⟩
    have hkey : (lowerStr k == "bumilot" || lowerStr k == "isbumilot") = false := by
      have := h1.1
      cases hx : (lowerStr k == "bumilot" || lowerStr k == "isbumilot") with
      | false => rfl
      | true => rw [hx] at this; simp at this
    cases v with
    | null =>
      show walkFlagObj (bumiKeyStep f k .null) tl = f
      rw [bumiKeyStep_skip f k _ hkey]
      exact walkFlagObj_nobumi tl f h1.2.2
    | bool b =>
      show walkFlagObj (bumiKeyStep f k (.bool b)) tl = f
      rw [bumiKeyStep_skip f k _ hkey]
      exact walkFlagObj_nobumi tl f h1.2.2
    | num q =>
      show walkFlagObj (bumiKeyStep f k (.num q)) tl = f
      rw [bumiKeyStep_skip f k _ hkey]
      exact walkFlagObj_nobumi tl f h1.2.2
    | str s =>
      have hint : interpretText s = none := by
        have hv := h1.2.1
        simp only [noBumiJson] at hv
        cases hi : interpretText s with
        | none => rfl
        | some b => rw [hi] at hv; simp at hv
      show walkFlagObj (registerFlag (bumiKeyStep f k (.str s)) (interpretText s)) tl = f
      rw [bumiKeyStep_skip f k _ hkey, hint]
      show walkFlagObj (registerFlag f none) tl = f
      exact walkFlagObj_nobumi tl f h1.2.2
    | arr xs2 =>
      show walkFlagObj (walkFlagArr (bumiKeyStep f k (.arr xs2)) xs2) tl = f
      rw [bumiKeyStep_skip f k _ hkey, walkFlagArr_nobumi xs2 f (by simpa [noBumiJson] using h1.2.1)]
      exact walkFlagObj_nobumi tl f h1.2.2
    | obj kvs2 =>
      show walkFlagObj (walkFlagObj (bumiKeyStep f k (.obj kvs2)) kvs2) tl = f
      rw [bumiKeyStep_skip f k _ hkey, walkFlagObj_nobumi kvs2 f (by simpa [noBumiJson] using h1.2.1)]
      exact walkFlagObj_nobumi tl f h1.2.2
theorem walkFlagArr_nobumi : ∀ (xs : JsonArr) (f : Option Bool), noBumiArr xs = true → walkFlagArr f xs = f
  | .nil, f, _ => rfl
  | .cons hd tl, f, h => by
    have h1 : noBumiJson hd = true ∧ noBumiArr tl = true := by
      simpa [noBumiArr, Bool.and_eq_true] using h
    show walkFlagArr (walkFlag f hd) tl = f
    rw [walkFlag_nobumi hd f h1.1]
    exact walkFlagArr_nobumi tl f h1.2
end

theorem walkRoots_nobumi : ∀ (roots : List Json) (f : Option Bool),
    (∀ r ∈ roots, noBumiJson r = true) → walkRoots f roots = f := by
  intro roots
  induction roots with
  | nil => intro f _; rfl
  | cons r rs ih =>
    intro f hall
    have hr : walkFlag f r = f := walkFlag_nobumi r f (hall r (List.mem_cons_self _ _))
    show (if (walkFlag f r == some true) = true then walkFlag f r else walkRoots (walkFlag f r) rs) = f
    rw [hr]
    by_cases hf : f = some true
    · rw [if_pos (by rw [hf]; rfl)]
    · rw [if_neg (by simpa using hf)]
      exact ih f (fun x hx => hall x (List.mem_cons_of_mem _ hx))

theorem walkRoots_append_true (post : List Json) :
    ∀ (pre : List Json) (f : Option Bool),
      walkRoots f pre = some true → walkRoots f (pre ++ post) = some true := by
  intro pre
  induction pre with
  | nil =>
    intro f h
    have hf : f = some true := h
    subst hf
    cases post with
    | nil => rfl
    | cons r rs =>
      show (if (walkFlag (some true) r == some true) = true then walkFlag (some true) r
            else walkRoots (walkFlag (some true) r) rs) = some true
      rw [walkFlag_true r]
      rfl
  | cons r rs ih =>
    intro f h
    by_cases hf1 : walkFlag f r = some true
    · show (if (walkFlag f r == some true) = true then walkFlag f r
            else walkRoots (walkFlag f r) (rs ++ post)) = some true
      rw [if_pos (by rw [hf1]; rfl)]
      exact hf1
    · have h2 : walkRoots (walkFlag f r) rs = some true := by
        have hcond : (walkFlag f r == some true) = false := by simpa using hf1
        have hh : (if (walkFlag f r == some true) = true then walkFlag f r
              else walkRoots (walkFlag f r) rs) = some true := h
        rw [hcond] at hh
        simpa using hh
      show (if (walkFlag f r == some true) = true then walkFlag f r
            else walkRoots (walkFlag f r) (rs ++ post)) = some true
      rw [if_neg (by simpa using hf1)]
      exact ih (walkFlag f r) h2

theorem domFold_none : ∀ (dom : List String),
    (∀ t ∈ dom, interpretText t = none) →
    dom.foldl (fun g t => registerFlag g (interpretText t)) none = none := by
  intro dom
  induction dom with
  | nil => intro _; rfl
  | cons t ts ih =>
    intro hall
    have ht : interpretText t = none := hall t (List.mem_cons_self _ _)
    show ts.foldl (fun g t => registerFlag g (interpretText t)) (registerFlag none (interpretText t)) = none
    rw [ht]
    exact ih (fun x hx => hall x (List.mem_cons_of_mem _ hx))

/-! ## Helper lemmas: `jget` and misc -/

theorem jget_null : ∀ (ks : List JKey), jget Json.null ks = Json.null := by
  intro ks
  cases ks with
  | nil => rfl
  | cons k ks => cases k <;> rfl

theorem addRawLand_lands (st : LandState) (t : String) : (addRawLand st t).lands = st.lands := by
  simp only [addRawLand]
  split_ifs <;> rfl

theorem builtUpSqftOf_pos {v : Option ℚ} {u : String} {b : ℚ}
    (h : builtUpSqftOf v u = some b) : 0 < b := by
  cases v with
  | none => simp [builtUpSqftOf] at h
  | some x =>
    simp only [builtUpSqftOf] at h
    by_cases hx : 0 < x
    · rw [if_pos hx] at h
      have hb : areaToSqft x u = b := by simpa using h
      rw [← hb]
      unfold areaToSqft
      split
      · positivity
      · exact hx
    · rw [if_neg hx] at h
      simp at h

/-! ## Helper lemmas: evaluating `pyRound`/`coercePriceValue` on integral rationals -/

theorem ratFloor_of_den_one (q : ℚ) (h : q.den = 1) : ratFloor q = q.num := by
  simp only [ratFloor, h, Nat.cast_one, Int.fdiv_one]

theorem pyRound_of_den_one (q : ℚ) (h : q.den = 1) : pyRound q = q.num := by
  have hq : (q.num : ℚ) = q := (Rat.den_eq_one_iff q).mp h
  simp only [pyRound]
  rw [ratFloor_of_den_one q h, hq, sub_self]
  rw [if_pos (by norm_num : (0 : ℚ) < 1/2)]

theorem coercePriceValue_den_one (q : ℚ) (h : q.den = 1) : coercePriceValue q = q := by
  have hq : (q.num : ℚ) = q := (Rat.den_eq_one_iff q).mp h
  simp only [coercePriceValue]
  rw [pyRound_of_den_one q h, hq]
  simp

theorem round2_of_eq (q : ℚ) (n : ℤ) (h : q * 100 = (n : ℚ)) : round2 q = (n : ℚ)/100 := by
  unfold round2
  rw [h, pyRound_of_den_one _ (Rat.den_intCast n), Rat.num_intCast]

/-! ## Claim C9: the blank-sentinel predicate -/

/-- C9 (corrected): `_is_blank` treats `None`, and a string whose stripped form
is exactly one of `""`, `"-"`, `"N/A"`, `"n/a"`, `"None"`, as blank — the
`N/A` matching is by exact membership in that sentinel set, not
case-insensitive. -/
theorem C9_blank_sentinel_set (s : String) :
    isBlank none = true ∧
    (isBlank (some s) = true ↔
      (pyStrip s = "" ∨ pyStrip s = "-" ∨ pyStrip s = "N/A" ∨ pyStrip s = "n/a"
        ∨ pyStrip s = "None")) := by
  refine ⟨rfl, ?_⟩
  simp [isBlank]

/-- C9 counterexample: the claim says every case variant of `N/A` (such as
`n/A`) is blank; the code rejects `n/A`, while the spec-worded predicate
accepts it. -/
theorem C9_blank_case_variant_counterexample :
    isBlank (some "n/A") = false ∧ isBlank (some "N/a") = false ∧
    isBlankSpecModel (some "n/A") = true := by
  refine ⟨by decide, by decide, by decide⟩

/-! ## Claim C4: land-size plausibility band -/

theorem landUnitFactor_some_ne_empty {c : String} {f : ℚ}
    (h : landUnitFactor c = some f) : c.data.isEmpty = false := by
  unfold landUnitFactor at h
  split_ifs at h with h1 h2 h3 h4 <;>
    first
      | (exact Option.noConfusion h)
      | (rw [eq_of_beq h1]; decide)
      | (rw [eq_of_beq h2]; decide)
      | (rw [eq_of_beq h3]; decide)
      | (rw [eq_of_beq h4]; decide)

/-- C4 (confirmed): `add_land_candidate` accepts a candidate exactly when its
converted square-foot area lies in the boundary-inclusive band
[200, 10000000]; non-positive values, values with no recognizable unit, and
absent values are always rejected. -/
theorem C4_land_plausibility_band (st : LandState) (n : ℚ) (u raw src : String)
    (prio : ℕ) (e : Bool) :
    (∀ a : ℚ, 0 < n → landToSqft n (canonicalLandUnit u) = some a →
      ((addLandCandidate st (some n) u raw src prio e).lands ≠ st.lands ↔
        (200 ≤ a ∧ a ≤ 10000000))) ∧
    (n ≤ 0 → addLandCandidate st (some n) u raw src prio e = st) ∧
    (canonicalLandUnit u = "" → addLandCandidate st (some n) u raw src prio e = st) ∧
    addLandCandidate st none u raw src prio e = st := by
  refine ⟨?_, ?_, ?_, rfl⟩
  · intro a hn ha
    have hfac : (canonicalLandUnit u).data.isEmpty = false := by
      unfold landToSqft at ha
      cases hf : landUnitFactor (canonicalLandUnit u) with
      | none => rw [hf] at ha; simp at ha
      | some f => exact landUnitFactor_some_ne_empty hf
    simp only [addLandCandidate]
    rw [if_neg (not_le.mpr hn),
      if_neg (show ¬((canonicalLandUnit u).data.isEmpty = true) by
        rw [hfac]; exact Bool.false_ne_true)]
    simp only [ha]
    by_cases hband : 200 ≤ a ∧ a ≤ 10000000
    · rw [if_neg (show ¬(a < 200 ∨ a > 10000000) by
        push_neg; exact ⟨hband.1, hband.2⟩)]
      refine iff_of_true ?_ hband
      intro heq
      have hlen := congrArg List.length heq
      rw [addRawLand_lands] at hlen
      simp at hlen
    · rw [if_pos (show (a < 200 ∨ a > 10000000) by
        rcases not_and_or.mp hband with h | h
        · exact Or.inl (not_le.mp h)
        · exact Or.inr (not_le.mp h))]
      exact iff_of_false (by simp) hband
  · intro hn
    simp only [addLandCandidate]
    rw [if_pos hn]
  · intro hcanon
    by_cases hn : n ≤ 0
    · simp only [addLandCandidate]
      rw [if_pos hn]
    · simp only [addLandCandidate]
      rw [if_neg hn, if_pos (by rw [hcanon]; rfl)]

/-- C4 witness: 199 sq ft rejected, 200 accepted, 10,000,000 accepted,
10,000,001 rejected, via `C4_land_plausibility_band`. -/
theorem C4_land_plausibility_band_witness :
    (addLandCandidate emptyLandState (some 199) "sq ft" "Land: 199 sq ft" "state.metatable" 4 true).lands
      = emptyLandState.lands ∧
    (addLandCandidate emptyLandState (some 200) "sq ft" "Land: 200 sq ft" "state.metatable" 4 true).lands
      ≠ emptyLandState.lands ∧
    (addLandCandidate emptyLandState (some 10000000) "sq ft" "big" "state.metatable" 4 true).lands
      ≠ emptyLandState.lands ∧
    (addLandCandidate emptyLandState (some 10000001) "sq ft" "huge" "state.metatable" 4 true).lands
      = emptyLandState.lands := by
  have hc : canonicalLandUnit "sq ft" = "sq ft" := by decide
  have hsq : ∀ v : ℚ, landToSqft v (canonicalLandUnit "sq ft") = some v := by
    intro v
    rw [hc]
    show some (v * 1) = some v
    rw [mul_one]
  refine ⟨?_, ?_, ?_, ?_⟩
  · have h := (C4_land_plausibility_band emptyLandState 199 "sq ft" "Land: 199 sq ft"
      "state.metatable" 4 true).1 199 (by norm_num) (hsq 199)
    by_contra hne
    have := h.mp hne
    revert this
    decide
  · exact (C4_land_plausibility_band emptyLandState 200 "sq ft" "Land: 200 sq ft"
      "state.metatable" 4 true).1 200 (by norm_num) (hsq 200) |>.mpr (by norm_num)
  · exact (C4_land_plausibility_band emptyLandState 10000000 "sq ft" "big"
      "state.metatable" 4 true).1 10000000 (by norm_num) (hsq 10000000) |>.mpr (by norm_num)
  · have h := (C4_land_plausibility_band emptyLandState 10000001 "sq ft" "huge"
      "state.metatable" 4 true).1 10000001 (by norm_num) (hsq 10000001)
    by_contra hne
    have := h.mp hne
    revert this
    decide

/-! ## Claim C3: derived built-up PSF -/

theorem deriveBuiltupPsf_reduce (p b : ℚ) (u : String) (hp : p ≠ 0) (hb : b ≠ 0) :
    deriveBuiltupPsf none false (some p) (some b) u =
      if (areaToSqft b u ≠ 0 ∧ 400 ≤ areaToSqft b u ∧ areaToSqft b u ≤ 20000
          ∧ 10000 ≤ p ∧ p ≤ 50000000)
      then some (round2 (p / areaToSqft b u)) else none := by
  simp only [deriveBuiltupPsf, Bool.false_eq_true, if_false]
  rw [if_pos ⟨hp, hb⟩]

/-- C3 (confirmed): for a non-rental page with no directly-resolved PSF and a
truthy price and built-up value, the built-up PSF is derived as
`round(price / area_in_sqft, 2)` exactly when the area lies in [400, 20000]
sq ft and the price in [10000, 50000000]; in particular 1200 sq ft at price
600000 yields 500 (formatted `500.00`). -/
theorem C3_derived_builtup_psf (p b : ℚ) (u : String) (hp : p ≠ 0) (hb : b ≠ 0) :
    (deriveBuiltupPsf none false (some p) (some b) u
        = some (round2 (p / areaToSqft b u)) ↔
      (400 ≤ areaToSqft b u ∧ areaToSqft b u ≤ 20000 ∧ 10000 ≤ p ∧ p ≤ 50000000)) ∧
    (¬(400 ≤ areaToSqft b u ∧ areaToSqft b u ≤ 20000 ∧ 10000 ≤ p ∧ p ≤ 50000000) →
      deriveBuiltupPsf none false (some p) (some b) u = none) ∧
    deriveBuiltupPsf none false (some 600000) (some 1200) "sq ft" = some 500 ∧
    format2dp (round2 ((600000 : ℚ) / areaToSqft 1200 "sq ft")) = "500.00" := by
  have hr := deriveBuiltupPsf_reduce p b u hp hb
  have harea : areaToSqft 1200 "sq ft" = 1200 := by decide
  have h500 : round2 ((600000 : ℚ) / areaToSqft 1200 "sq ft") = 500 := by
    rw [harea]
    have hdiv : (600000 : ℚ) / 1200 * 100 = ((50000 : ℤ) : ℚ) := by norm_num
    rw [round2_of_eq _ _ hdiv]
    norm_num
  refine ⟨⟨?_, ?_⟩, ?_, ?_, ?_⟩
  · intro h
    by_cases hc : (areaToSqft b u ≠ 0 ∧ 400 ≤ areaToSqft b u ∧ areaToSqft b u ≤ 20000
        ∧ 10000 ≤ p ∧ p ≤ 50000000)
    · exact hc.2
    · rw [hr, if_neg hc] at h
      exact absurd h (by simp)
  · intro hX
    rw [hr, if_pos ⟨ne_of_gt (lt_of_lt_of_le (by norm_num) hX.1), hX⟩]
  · intro hX
    rw [hr, if_neg (fun hc => hX hc.2)]
  · have hr6 := deriveBuiltupPsf_reduce 600000 1200 "sq ft" (by norm_num) (by norm_num)
    rw [hr6, if_pos ?_, h500]
    rw [harea]
    norm_num
  · rw [h500]
    have h1 : (500 : ℚ) * 100 = ((50000 : ℤ) : ℚ) := by norm_num
    have h2 : pyRound ((500 : ℚ) * 100) = 50000 := by
      rw [h1, pyRound_of_den_one _ (Rat.den_intCast _), Rat.num_intCast]
    simp only [format2dp]
    rw [h2]
    decide

/-- C3 witness: the derivation fires at the spec's concrete scenario, via
`C3_derived_builtup_psf`. -/
theorem C3_derived_builtup_psf_witness :
    deriveBuiltupPsf none false (some 600000) (some 1200) "sq ft"
      = some (round2 ((600000 : ℚ) / areaToSqft 1200 "sq ft")) :=
  ((C3_derived_builtup_psf 600000 1200 "sq ft" (by norm_num) (by norm_num)).1).mpr (by decide)

/-! ## Claim C5: agent-name plausibility filter -/

/-- C5 (corrected): EVERY agent-name candidate — the JSON-sourced
`contactAgentData` ones included — passes through the `_normalize_candidate`
plausibility filter; a rejected name adds no candidate whatever the source.
`"ABC Realty Sdn Bhd"` is rejected and `"Tan Wei Ming"` is accepted
title-cased. -/
theorem C5_agent_name_filter (st : AgentState) (name source : String) :
    (normalizeAgentCandidate name = "" → addAgentCandidate st name source = st) ∧
    normalizeAgentCandidate "ABC Realty Sdn Bhd" = "" ∧
    normalizeAgentCandidate "Tan Wei Ming" = "Tan Wei Ming" ∧
    addAgentCandidate emptyAgentState "Tan Wei Ming" "dom"
      = ⟨[⟨2, "dom", "Tan Wei Ming", 0⟩], [("tan wei ming", "dom")]⟩ := by
  refine ⟨?_, by decide, by decide, by decide⟩
  intro h
  simp only [addAgentCandidate, h]
  rw [if_pos (by decide)]

/-- C5 counterexample: a JSON-sourced (`contactAgentData`, priority 4)
candidate failing the plausibility filter is dropped, contradicting the
claim that JSON candidates are admitted without the filter. -/
theorem C5_json_candidate_filtered_counterexample :
    addAgentCandidate emptyAgentState "ABC Realty Sdn Bhd" "contactAgentData" = emptyAgentState ∧
    pickAgentBest (addAgentCandidate emptyAgentState "ABC Realty Sdn Bhd" "contactAgentData").cands
      = none := by
  refine ⟨by decide, by decide⟩

/-- C5 witness for `C5_agent_name_filter`: a too-short name is filtered on the
DOM path too. -/
theorem C5_agent_name_filter_witness :
    addAgentCandidate emptyAgentState "x" "dom" = emptyAgentState :=
  (C5_agent_name_filter emptyAgentState "x" "dom").1 (by decide)

/-! ## Claim C10: car-park resolver -/

/-- C10 (corrected): among the kept metatable values (those not mentioning
psf/floor/built/title and matched by the car-park pattern), the resolver
returns the maximum matched integer only when it is positive; when no value
matches — or every matched integer is 0 — it returns absent; the
representative raw value is the last kept value. -/
theorem C10_car_park_resolution (values : List String) :
    ((extractCarPark values).1 = none ↔
      ∀ v ∈ (extractCarPark values).2.2, ∀ n ∈ carParkInts v, n = 0) ∧
    (∀ n : ℕ, (extractCarPark values).1 = some n →
      0 < n ∧ (∃ v ∈ (extractCarPark values).2.2, n ∈ carParkInts v) ∧
        ∀ v ∈ (extractCarPark values).2.2, ∀ m ∈ carParkInts v, m ≤ n) ∧
    (extractCarPark values).2.1 = ((extractCarPark values).2.2.getLast?).getD "" := by
  have hR : (extractCarPark values).2.2 = (values.map pyStrip).filter (fun val =>
      !(strHasSubIC val "psf" || strHasSubIC val "floor" || strHasSubIC val "built"
          || strHasSubIC val "title")
        && !(carParkInts val).isEmpty) := rfl
  set R := (values.map pyStrip).filter (fun val =>
      !(strHasSubIC val "psf" || strHasSubIC val "floor" || strHasSubIC val "built"
          || strHasSubIC val "title")
        && !(carParkInts val).isEmpty) with hRdef
  have hcp : (extractCarPark values).1 =
      (if 0 < nestedMax carParkInts R 0 then some (nestedMax carParkInts R 0) else none) := rfl
  refine ⟨?_, ?_, rfl⟩
  · rw [hcp, hR]
    constructor
    · intro hnone v hv n hn
      by_cases hM : 0 < nestedMax carParkInts R 0
      · rw [if_pos hM] at hnone
        exact absurd hnone (by simp)
      · have hM0 : nestedMax carParkInts R 0 = 0 := Nat.eq_zero_of_not_pos hM
        have := nestedMax_mem_le carParkInts R 0 v hv n hn
        omega
    · intro hall
      have hM0 : nestedMax carParkInts R 0 = 0 := by
        rcases nestedMax_eq_or_attained carParkInts R 0 with h | ⟨v, hv, hm⟩
        · exact h
        · exact hall v hv _ hm
      rw [if_neg (by omega)]
  · intro n hsome
    rw [hcp] at hsome
    by_cases hM : 0 < nestedMax carParkInts R 0
    · rw [if_pos hM] at hsome
      have hn : nestedMax carParkInts R 0 = n := by simpa using hsome
      subst hn
      refine ⟨hM, ?_, ?_⟩
      · rcases nestedMax_eq_or_attained carParkInts R 0 with h | ⟨v, hv, hm⟩
        · omega
        · exact ⟨v, by rw [hR]; exact hv, hm⟩
      · intro v hv m hm
        exact nestedMax_mem_le carParkInts R 0 v (by rw [hR] at hv; exact hv) m hm
    · rw [if_neg hM] at hsome
      exact absurd hsome (by simp)

/-- C10 counterexample: the metatable value `"0 carpark"` is matched by the
car-park pattern (captured integers `[0]`), so under the claim the resolver
should return the maximum matched count 0, but it returns absent. -/
theorem C10_zero_count_counterexample :
    extractCarPark ["0 carpark"] = (none, "0 carpark", ["0 carpark"]) ∧
    carParkInts "0 carpark" = [0] := by
  refine ⟨by decide, by decide⟩

/-- C10 witness for `C10_car_park_resolution`: on a page with values
`2 car parks` and `3 carparks` the resolved count 3 is positive, attained,
and maximal. -/
theorem C10_car_park_resolution_witness :
    0 < 3 ∧ (∃ v ∈ (extractCarPark ["2 car parks", "3 carparks"]).2.2, 3 ∈ carParkInts v) ∧
      ∀ v ∈ (extractCarPark ["2 car parks", "3 carparks"]).2.2, ∀ m ∈ carParkInts v, m ≤ 3 :=
  (C10_car_park_resolution ["2 car parks", "3 carparks"]).2.1 3 (by decide)

/-! ## Claim C7: error absorption in JSON collection and `jget` -/

theorem scriptContrib_none {t : ScriptTag} (h : t.parsed = none) : scriptContrib t = [] := by
  unfold scriptContrib
  split
  · rw [h]
  · rfl

/-- C7 (confirmed): a script tag whose text fails strict JSON parsing
contributes no JSON root, and `jget` returns absent (`Json.null`, Python
`None`) — never an error — the moment a key is missing or a type mismatch
occurs. -/
theorem C7_error_absorption (pre post : List ScriptTag) (t : ScriptTag)
    (fs : JsonObj) (xs : JsonArr) (k : String) (i : ℤ) (kk : JKey) (ks : List JKey)
    (s : String) (q : ℚ) (bv : Bool) :
    (t.parsed = none → iterScriptJsons (pre ++ t :: post) = iterScriptJsons (pre ++ post)) ∧
    jget Json.null (kk :: ks) = Json.null ∧
    jget (Json.str s) (kk :: ks) = Json.null ∧
    jget (Json.num q) (kk :: ks) = Json.null ∧
    jget (Json.bool bv) (kk :: ks) = Json.null ∧
    (jsonObjGet fs k = none → jget (Json.obj fs) (JKey.str k :: ks) = Json.null) ∧
    jget (Json.obj fs) (JKey.idx i :: ks) = Json.null ∧
    jget (Json.arr xs) (JKey.str k :: ks) = Json.null ∧
    (jsonArrGet xs i = none → jget (Json.arr xs) (JKey.idx i :: ks) = Json.null) := by
  refine ⟨?_, ?_, ?_, ?_, ?_, ?_, ?_, ?_, ?_⟩
  · intro h
    simp only [iterScriptJsons, List.map_append, List.map_cons, List.flatten_append,
      List.flatten_cons, scriptContrib_none h, List.nil_append]
  · cases kk <;> rfl
  · cases kk <;> rfl
  · cases kk <;> rfl
  · cases kk <;> rfl
  · intro h
    show jget (match jsonObjGet fs k with | some v => v | none => Json.null) ks = Json.null
    rw [h]
    exact jget_null ks
  · exact jget_null ks
  · rfl
  · intro h
    show (match jsonArrGet xs i with | some v => jget v ks | none => Json.null) = Json.null
    rw [h]

/-- C7 witness for `C7_error_absorption`: a malformed script between two others
contributes nothing, and missing keys / bad indices yield `Json.null`. -/
theorem C7_error_absorption_witness :
    iterScriptJsons [⟨"application/json", "", some (Json.obj JsonObj.nil)⟩,
        ⟨"application/json", "bad", none⟩]
      = iterScriptJsons [⟨"application/json", "", some (Json.obj JsonObj.nil)⟩] ∧
    jget (Json.obj (JsonObj.cons "a" (Json.num 1) JsonObj.nil)) [JKey.str "b", JKey.str "c"]
      = Json.null ∧
    jget (Json.arr (JsonArr.cons (Json.num 5) JsonArr.nil)) [JKey.idx 1] = Json.null := by
  refine ⟨?_, ?_, ?_⟩
  · exact (C7_error_absorption [⟨"application/json", "", some (Json.obj JsonObj.nil)⟩] []
      ⟨"application/json", "bad", none⟩ JsonObj.nil JsonArr.nil "" 0 (JKey.str "") [] "" 0 true).1 rfl
  · exact (C7_error_absorption [] [] ⟨"", "", none⟩
      (JsonObj.cons "a" (Json.num 1) JsonObj.nil) JsonArr.nil "b" 0 (JKey.str "") [JKey.str "c"]
      "" 0 true).2.2.2.2.2.1 rfl
  · exact (C7_error_absorption [] [] ⟨"", "", none⟩
      JsonObj.nil (JsonArr.cons (Json.num 5) JsonArr.nil) "" 1 (JKey.str "") [] "" 0 true).2.2.2.2.2.2.2.2
      rfl

/-! ## Claim C8: tri-state bumi-lot flag -/

/-- C8 (confirmed): a page whose JSON carries a text with both `bumi` and
`lot` resolves the flag to `"No"` under a negation and to `"Yes"` without
one; a page with no bumi-related content (no `bumiLot`/`isBumiLot` key and
no string `interpret_text` recognises) resolves to the empty string; and once
the JSON walk reaches a definitive `True` the page resolves to `"Yes"`
whatever JSON roots or DOM texts follow. -/
theorem C8_bumi_lot_tristate (s : String) (roots pre post : List Json) (dom : List String) :
    (strHasSub (lowerStr (pyStrip s)) "bumi" = true →
     strHasSub (lowerStr (pyStrip s)) "lot" = true →
     bumiNeg (lowerStr (pyStrip s)) = true →
       extractBumiFlag [Json.obj (JsonObj.cons "value" (Json.str s) JsonObj.nil)] [] = "No") ∧
    (strHasSub (lowerStr (pyStrip s)) "bumi" = true →
     strHasSub (lowerStr (pyStrip s)) "lot" = true →
     bumiNeg (lowerStr (pyStrip s)) = false →
       extractBumiFlag [Json.obj (JsonObj.cons "value" (Json.str s) JsonObj.nil)] [] = "Yes") ∧
    ((∀ r ∈ roots, noBumiJson r = true) → (∀ t ∈ dom, interpretText t = none) →
       extractBumiFlag roots dom = "") ∧
    (walkRoots none pre = some true → extractBumiFlag (pre ++ post) dom = "Yes") := by
  have hkey : (lowerStr "value" == "bumilot" || lowerStr "value" == "isbumilot") = false := by decide
  refine ⟨?_, ?_, ?_, ?_⟩
  · intro h1 h2 hneg
    have hint : interpretText s = some false := by
      simp only [interpretText]
      rw [if_pos (by rw [h1, h2]; rfl), if_pos hneg]
    have hwf : walkFlag none (Json.obj (JsonObj.cons "value" (Json.str s) JsonObj.nil))
        = some false := by
      show walkFlagObj (registerFlag (bumiKeyStep none "value" (Json.str s)) (interpretText s))
        JsonObj.nil = some false
      rw [bumiKeyStep_skip none "value" _ hkey, hint]
      rfl
    have hroots : walkRoots none [Json.obj (JsonObj.cons "value" (Json.str s) JsonObj.nil)]
        = some false := by
      show (if (walkFlag none (Json.obj (JsonObj.cons "value" (Json.str s) JsonObj.nil))
            == some true) = true
          then walkFlag none (Json.obj (JsonObj.cons "value" (Json.str s) JsonObj.nil))
          else walkRoots (walkFlag none (Json.obj (JsonObj.cons "value" (Json.str s) JsonObj.nil))) [])
        = some false
      rw [hwf]
      rfl
    simp only [extractBumiFlag]
    rw [hroots]
    rfl
  · intro h1 h2 hneg
    have hint : interpretText s = some true := by
      simp only [interpretText]
      rw [if_pos (by rw [h1, h2]; rfl), if_neg (by rw [hneg]; exact Bool.false_ne_true)]
    have hwf : walkFlag none (Json.obj (JsonObj.cons "value" (Json.str s) JsonObj.nil))
        = some true := by
      show walkFlagObj (registerFlag (bumiKeyStep none "value" (Json.str s)) (interpretText s))
        JsonObj.nil = some true
      rw [bumiKeyStep_skip none "value" _ hkey, hint]
      rfl
    have hroots : walkRoots none [Json.obj (JsonObj.cons "value" (Json.str s) JsonObj.nil)]
        = some true := by
      show (if (walkFlag none (Json.obj (JsonObj.cons "value" (Json.str s) JsonObj.nil))
            == some true) = true
          then walkFlag none (Json.obj (JsonObj.cons "value" (Json.str s) JsonObj.nil))
          else walkRoots (walkFlag none (Json.obj (JsonObj.cons "value" (Json.str s) JsonObj.nil))) [])
        = some true
      rw [hwf]
      rfl
    simp only [extractBumiFlag]
    rw [hroots]
    rfl
  · intro hroots hdom
    have h1 : walkRoots none roots = none := walkRoots_nobumi roots none hroots
    simp only [extractBumiFlag]
    rw [h1, if_pos (by rfl), domFold_none dom hdom]
  · intro h
    have h2 : walkRoots none (pre ++ post) = some true := walkRoots_append_true post pre none h
    simp only [extractBumiFlag]
    rw [h2]
    rfl

/-- C8 witness for `C8_bumi_lot_tristate`: the spec's three scenarios plus the
short-circuit, at concrete pages. -/
theorem C8_bumi_lot_tristate_witness :
    extractBumiFlag [Json.obj (JsonObj.cons "value" (Json.str "Not Bumi Lot") JsonObj.nil)] []
      = "No" ∧
    extractBumiFlag [Json.obj (JsonObj.cons "value" (Json.str "Bumi Lot") JsonObj.nil)] []
      = "Yes" ∧
    extractBumiFlag [Json.obj (JsonObj.cons "tenure" (Json.str "Freehold") JsonObj.nil)]
      ["Freehold"] = "" ∧
    extractBumiFlag ([Json.obj (JsonObj.cons "bumiLot" (Json.bool true) JsonObj.nil)]
        ++ [Json.obj (JsonObj.cons "x" (Json.str "Not Bumi Lot") JsonObj.nil)])
      ["Not Bumi Lot"] = "Yes" := by
  refine ⟨?_, ?_, ?_, ?_⟩
  · exact (C8_bumi_lot_tristate "Not Bumi Lot" [] [] [] []).1 (by decide) (by decide) (by decide)
  · exact (C8_bumi_lot_tristate "Bumi Lot" [] [] [] []).2.1 (by decide) (by decide) (by decide)
  · refine (C8_bumi_lot_tristate ""
      [Json.obj (JsonObj.cons "tenure" (Json.str "Freehold") JsonObj.nil)] [] [] ["Freehold"]).2.2.1
      ?_ ?_
    · intro r hr
      rw [List.mem_singleton] at hr
      subst hr
      decide
    · intro t ht
      rw [List.mem_singleton] at ht
      subst ht
      decide
  · exact (C8_bumi_lot_tristate "" []
      [Json.obj (JsonObj.cons "bumiLot" (Json.bool true) JsonObj.nil)]
      [Json.obj (JsonObj.cons "x" (Json.str "Not Bumi Lot") JsonObj.nil)]
      ["Not Bumi Lot"]).2.2.2 (by decide)

/-! ## Claim C6: deterministic, order-stable candidate arbitration -/

/-- C6 (confirmed): the land-candidate arbitration loop is deterministic, the
winner maximizes the key `(priority, explicit)` (Python tuple order), a
later-discovered candidate whose key is not strictly greater never replaces
the winner, and permuting candidates with pairwise-distinct priorities does
not change the winner. -/
theorem C6_arbitration_deterministic (l l2 : List LandCand) :
    (bestLandOf l = bestLandOf l) ∧
    (∀ w, bestLandOf l = some w → w ∈ l ∧ ∀ c ∈ l, landKey c ≤ landKey w) ∧
    (∀ w c, bestLandOf l = some w → landKey c ≤ landKey w →
      bestLandOf (l ++ [c]) = some w) ∧
    (l.Perm l2 → (l.map (fun c => c.priority)).Nodup → bestLandOf l = bestLandOf l2) := by
  refine ⟨rfl, ?_, ?_, ?_⟩
  · intro w hw
    exact ⟨pickFirstMax_mem landKey hw, pickFirstMax_le landKey hw⟩
  · intro w c hw hc
    exact pickFirstMax_append_le landKey hw hc
  · intro hperm hnodup
    by_cases hl : l = []
    · subst hl
      rw [hperm.symm.eq_nil]
    · have hl2 : l2 ≠ [] := by
        intro h2
        subst h2
        exact hl hperm.eq_nil
      obtain ⟨w, hw⟩ := pickFirstMax_of_ne_nil landKey hl
      obtain ⟨w2, hw2⟩ := pickFirstMax_of_ne_nil landKey hl2
      unfold bestLandOf
      rw [hw, hw2]
      have hmemw : w ∈ l := pickFirstMax_mem landKey hw
      have hmemw2 : w2 ∈ l2 := pickFirstMax_mem landKey hw2
      have hw2_in_l : w2 ∈ l := (hperm.mem_iff).mpr hmemw2
      have hw_in_l2 : w ∈ l2 := (hperm.mem_iff).mp hmemw
      have h1 : landKey w2 ≤ landKey w := pickFirstMax_le landKey hw w2 hw2_in_l
      have h2 : landKey w ≤ landKey w2 := pickFirstMax_le landKey hw2 w hw_in_l2
      have hkey : landKey w = landKey w2 := le_antisymm h2 h1
      have hpair : (w.priority, w.explicit) = (w2.priority, w2.explicit) := by
        unfold landKey at hkey
        exact toLex_inj.mp hkey
      have hpri : w.priority = w2.priority := congrArg Prod.fst hpair
      rw [List.inj_on_of_nodup_map hnodup hmemw hw2_in_l hpri]

/-- C6 witness for `C6_arbitration_deterministic`: two candidates with
distinct priorities keep the same winner under a swap, the winner maximizes
the key, and appending a weaker candidate does not change it. -/
theorem C6_arbitration_deterministic_witness :
    bestLandOf [⟨3, false, 1000, 1000, "sq ft", "a", "dom.metatable"⟩,
        ⟨5, true, 2000, 2000, "sq ft", "b", "state.metatable"⟩]
      = bestLandOf [⟨5, true, 2000, 2000, "sq ft", "b", "state.metatable"⟩,
        ⟨3, false, 1000, 1000, "sq ft", "a", "dom.metatable"⟩] ∧
    ((⟨5, true, 2000, 2000, "sq ft", "b", "state.metatable"⟩ : LandCand)
        ∈ [(⟨3, false, 1000, 1000, "sq ft", "a", "dom.metatable"⟩ : LandCand),
           ⟨5, true, 2000, 2000, "sq ft", "b", "state.metatable"⟩] ∧
      ∀ c ∈ [(⟨3, false, 1000, 1000, "sq ft", "a", "dom.metatable"⟩ : LandCand),
           ⟨5, true, 2000, 2000, "sq ft", "b", "state.metatable"⟩],
        landKey c ≤ landKey ⟨5, true, 2000, 2000, "sq ft", "b", "state.metatable"⟩) ∧
    bestLandOf ([⟨3, false, 1000, 1000, "sq ft", "a", "dom.metatable"⟩,
        ⟨5, true, 2000, 2000, "sq ft", "b", "state.metatable"⟩]
        ++ [⟨5, false, 1500, 1500, "sq ft", "c", "hero.details"⟩])
      = some ⟨5, true, 2000, 2000, "sq ft", "b", "state.metatable"⟩ := by
  refine ⟨?_, ?_, ?_⟩
  · exact (C6_arbitration_deterministic
      [⟨3, false, 1000, 1000, "sq ft", "a", "dom.metatable"⟩,
       ⟨5, true, 2000, 2000, "sq ft", "b", "state.metatable"⟩]
      [⟨5, true, 2000, 2000, "sq ft", "b", "state.metatable"⟩,
       ⟨3, false, 1000, 1000, "sq ft", "a", "dom.metatable"⟩]).2.2.2
      (List.Perm.swap _ _ _) (by decide)
  · exact (C6_arbitration_deterministic
      [⟨3, false, 1000, 1000, "sq ft", "a", "dom.metatable"⟩,
       ⟨5, true, 2000, 2000, "sq ft", "b", "state.metatable"⟩] []).2.1
      _ (by decide)
  · exact (C6_arbitration_deterministic
      [⟨3, false, 1000, 1000, "sq ft", "a", "dom.metatable"⟩,
       ⟨5, true, 2000, 2000, "sq ft", "b", "state.metatable"⟩] []).2.2.1
      _ _ (by decide) (by decide)

/-! ## Claim C1: strata-type land-size guard -/

theorem bestPsfOf_nil : bestPsfOf [] = none := rfl

/-- C1 (confirmed): for a strata-type page the land resolver returns
everything empty unless an explicitly-labeled land field was found, and even
then returns everything empty when the best land candidate's square-foot
area is within 1 sq ft of the built-up area. -/
theorem C1_strata_land_guard (st : LandState) (pt : String) (price : Option ℚ)
    (isRent : Bool) (bu : Option ℚ) (buUnit : String)
    (hstrata : strataTypes.contains (lowerStr (pyStrip pt)) = true) :
    ((attrLandFieldFound st || explicitLabelFound st) = false →
      landResolve st pt price isRent bu buUnit = ("", "", [], "", "")) ∧
    (∀ c b, bestLandOf st.lands = some c → builtUpSqftOf bu buUnit = some b →
      |c.sqft - b| < 1 →
      landResolve st pt price isRent bu buUnit = ("", "", [], "", "")) := by
  have hclear : (attrLandFieldFound st || explicitLabelFound st) = false →
      landResolve st pt price isRent bu buUnit = ("", "", [], "", "") := by
    intro hexp
    simp only [landResolve, hstrata, hexp, Bool.not_false, Bool.and_self, if_true,
      bestPsfOf, pickFirstMax]
  refine ⟨hclear, ?_⟩
  intro c b hbest hbu habs
  by_cases hexp : (attrLandFieldFound st || explicitLabelFound st) = false
  · exact hclear hexp
  · have hexp_t : (attrLandFieldFound st || explicitLabelFound st) = true := by
      cases h : (attrLandFieldFound st || explicitLabelFound st) with
      | false => exact absurd h hexp
      | true => rfl
    have hbpos : (0 : ℚ) < b := builtUpSqftOf_pos hbu
    simp only [landResolve, hstrata, hexp_t, Bool.not_true, Bool.and_false,
      Bool.false_eq_true, if_false, hbest, hbu]
    rw [if_pos ⟨ne_of_gt hbpos, trivial, habs⟩]
    simp [bestPsfOf, pickFirstMax]

/-- C1 witness for `C1_strata_land_guard`: the spec's condominium scenario — a
non-explicit 1000 sq ft land candidate is discarded, and an explicit one
matching the built-up area within 1 sq ft is discarded too. -/
theorem C1_strata_land_guard_witness :
    landResolve ⟨["1,000 sq ft"], ["1,000 sq ft"],
        [⟨3, false, 1000, 1000, "sq ft", "1,000 sq ft", "dom.metatable"⟩], []⟩
      "Condominium" (some 500000) false (some 1000) "sq ft" = ("", "", [], "", "") ∧
    landResolve ⟨["1,000 sq ft"], ["1,000 sq ft"],
        [⟨4, true, 1000, 1000, "sq ft", "1,000 sq ft", "state.metatable"⟩], []⟩
      "Condominium" (some 500000) false (some 1000) "sq ft" = ("", "", [], "", "") := by
  refine ⟨?_, ?_⟩
  · exact (C1_strata_land_guard _ "Condominium" (some 500000) false (some 1000) "sq ft"
      (by decide)).1 (by decide)
  · exact (C1_strata_land_guard _ "Condominium" (some 500000) false (some 1000) "sq ft"
      (by decide)).2 ⟨4, true, 1000, 1000, "sq ft", "1,000 sq ft", "state.metatable"⟩ 1000
      (by decide) (by decide) (by norm_num)

/-! ## Claim C2: price resolver -/

theorem str_data_isEmpty_false {s : String} (h : s ≠ "") : s.data.isEmpty = false := by
  rw [List.isEmpty_eq_false]
  intro hd
  exact h (String.ext hd)

theorem foldMaxPriority_all_two :
    ∀ (l : List PriceCand) (a : ℕ), (∀ c ∈ l, c.priority = 2) → l ≠ [] →
      l.foldl (fun m c => max m c.priority) a = max a 2 := by
  intro l
  induction l with
  | nil => intro a _ h; exact absurd rfl h
  | cons c cs ih =>
    intro a hall _
    show cs.foldl (fun m c => max m c.priority) (max a c.priority) = max a 2
    rw [hall c (List.mem_cons_self _ _)]
    by_cases hcs : cs = []
    · subst hcs; rfl
    · rw [ih (max a 2) (fun x hx => hall x (List.mem_cons_of_mem _ hx)) hcs,
        max_assoc, max_self]

theorem selectPrice_sale_dom (c0 : PriceCand) (rest : List PriceCand)
    (hall : ∀ c ∈ c0 :: rest, c.priority = 2) :
    ∃ w ∈ c0 :: rest,
      selectPrice false (c0 :: rest) = (w.currency, some w.amount, w.source) ∧
      ∀ c ∈ c0 :: rest, c.amount ≤ w.amount := by
  have hm : (c0 :: rest).foldl (fun m c => max m c.priority) 0 = 2 := by
    rw [foldMaxPriority_all_two _ 0 hall (by simp)]
    rfl
  have hg : (c0 :: rest).filter (fun c => c.priority == 2) = c0 :: rest :=
    List.filter_eq_self.mpr (fun c hc => by rw [hall c hc]; rfl)
  refine ⟨pickMinAux (fun c => (toLex (-c.amount, c.order) : ℚ ×ₗ ℕ)) c0 rest,
    pickMinAux_mem _ rest c0, ?_, ?_⟩
  · simp only [selectPrice, hm, hg]
    rw [if_neg (by simp), if_pos (by simp)]
    rfl
  · intro c hc
    have hle := pickMinAux_le (fun c => (toLex (-c.amount, c.order) : ℚ ×ₗ ℕ)) rest c0 c hc
    rw [Prod.Lex.le_iff] at hle
    rcases hle with h | h
    · have : -(pickMinAux (fun c => (toLex (-c.amount, c.order) : ℚ ×ₗ ℕ)) c0 rest).amount
          < -c.amount := h
      linarith
    · have : -(pickMinAux (fun c => (toLex (-c.amount, c.order) : ℚ ×ₗ ℕ)) c0 rest).amount
          = -c.amount := h.1
      linarith

theorem selectPrice_rent_hinted (c0 : PriceCand) (rest : List PriceCand)
    (hall : ∀ c ∈ c0 :: rest, c.priority = 2)
    (hh : ∃ ch ∈ c0 :: rest, ch.rentHint = true) :
    ∃ w ∈ c0 :: rest, w.rentHint = true ∧
      selectPrice true (c0 :: rest) = (w.currency, some w.amount, w.source) ∧
      ∀ c ∈ c0 :: rest, c.rentHint = true → w.amount ≤ c.amount := by
  have hm : (c0 :: rest).foldl (fun m c => max m c.priority) 0 = 2 := by
    rw [foldMaxPriority_all_two _ 0 hall (by simp)]
    rfl
  have hg : (c0 :: rest).filter (fun c => c.priority == 2) = c0 :: rest :=
    List.filter_eq_self.mpr (fun c hc => by rw [hall c hc]; rfl)
  have hrgne : (c0 :: rest).filter (fun c => c.rentHint) ≠ [] := by
    rcases hh with ⟨ch, hmem, hhint⟩
    intro hnil
    have hin : ch ∈ (c0 :: rest).filter (fun c => c.rentHint) :=
      List.mem_filter.mpr ⟨hmem, hhint⟩
    rw [hnil] at hin
    simp at hin
  obtain ⟨g0, grest, hgroup⟩ := List.exists_cons_of_ne_nil hrgne
  have hwmem_g : pickMinAux (fun c => (toLex (c.amount, c.order) : ℚ ×ₗ ℕ)) g0 grest
      ∈ g0 :: grest := pickMinAux_mem _ grest g0
  have hwgrp : pickMinAux (fun c => (toLex (c.amount, c.order) : ℚ ×ₗ ℕ)) g0 grest
      ∈ (c0 :: rest).filter (fun c => c.rentHint) := by
    rw [hgroup]; exact hwmem_g
  refine ⟨pickMinAux (fun c => (toLex (c.amount, c.order) : ℚ ×ₗ ℕ)) g0 grest,
    (List.mem_filter.mp hwgrp).1, (List.mem_filter.mp hwgrp).2, ?_, ?_⟩
  · simp only [selectPrice, hm, hg, hgroup]
    rw [if_pos (by simp)]
    rfl
  · intro c hc hcint
    have hcgrp : c ∈ g0 :: grest := by
      rw [← hgroup]; exact List.mem_filter.mpr ⟨hc, hcint⟩
    have hle := pickMinAux_le (fun c => (toLex (c.amount, c.order) : ℚ ×ₗ ℕ)) grest g0 c hcgrp
    rw [Prod.Lex.le_iff] at hle
    rcases hle with h | h
    · exact le_of_lt h
    · exact le_of_eq h.1

theorem selectPrice_rent_unhinted (c0 : PriceCand) (rest : List PriceCand)
    (hall : ∀ c ∈ c0 :: rest, c.priority = 2)
    (hnone : ∀ c ∈ c0 :: rest, c.rentHint = false) :
    ∃ w ∈ c0 :: rest,
      selectPrice true (c0 :: rest) = (w.currency, some w.amount, w.source) ∧
      ∀ c ∈ c0 :: rest, w.order ≤ c.order := by
  have hm : (c0 :: rest).foldl (fun m c => max m c.priority) 0 = 2 := by
    rw [foldMaxPriority_all_two _ 0 hall (by simp)]
    rfl
  have hg : (c0 :: rest).filter (fun c => c.priority == 2) = c0 :: rest :=
    List.filter_eq_self.mpr (fun c hc => by rw [hall c hc]; rfl)
  have hrg : (c0 :: rest).filter (fun c => c.rentHint) = [] :=
    List.filter_eq_nil_iff.mpr (fun c hc => by rw [hnone c hc]; exact Bool.false_ne_true)
  refine ⟨pickMinAux (fun c => c.order) c0 rest, pickMinAux_mem _ rest c0, ?_, ?_⟩
  · simp only [selectPrice, hm, hg, hrg]
    rw [if_neg (by simp), if_neg (by simp)]
    rfl
  · intro c hc
    exact pickMinAux_le (fun c => c.order) rest c0 c hc

/-- C2 (corrected): `add_candidate` rejects stated currencies other than
MYR/RM and applies the rent (≤ 100000) / sale (≥ 10000) bounds; DOM headline
strings with PSF/PSM/per-square-unit or deposit/booking words are skipped;
within the DOM priority group a sale page picks the largest amount, while a
rent page picks the smallest amount only among rent-hinted candidates and
otherwise the earliest-collected one. -/
theorem C2_price_resolution (st : PriceState) (a : ℚ) (cur src txt : String)
    (prio : ℕ) (hint isRent : Bool) (cands : List PriceCand) :
    (upperStr cur ≠ "" → upperStr cur ≠ "MYR" → upperStr cur ≠ "RM" →
      addPriceCandidate isRent st (some a) cur src prio hint = st) ∧
    (coercePriceValue a > 100000 → addPriceCandidate true st (some a) cur src prio hint = st) ∧
    (coercePriceValue a < 10000 → addPriceCandidate false st (some a) cur src prio hint = st) ∧
    ((domSkipTerms.any (fun term => strHasSub (lowerStr txt) term) = true
        ∨ strHasSub (lowerStr txt) "deposit" = true
        ∨ strHasSub (lowerStr txt) "booking" = true) →
      processDomText isRent st txt = st) ∧
    (cands ≠ [] → (∀ c ∈ cands, c.priority = 2) →
      ((isRent = false →
          ∃ w ∈ cands, selectPrice isRent cands = (w.currency, some w.amount, w.source) ∧
            ∀ c ∈ cands, c.amount ≤ w.amount) ∧
       (isRent = true → (∃ ch ∈ cands, ch.rentHint = true) →
          ∃ w ∈ cands, w.rentHint = true ∧
            selectPrice isRent cands = (w.currency, some w.amount, w.source) ∧
            ∀ c ∈ cands, c.rentHint = true → w.amount ≤ c.amount) ∧
       (isRent = true → (∀ c ∈ cands, c.rentHint = false) →
          ∃ w ∈ cands, selectPrice isRent cands = (w.currency, some w.amount, w.source) ∧
            ∀ c ∈ cands, w.order ≤ c.order))) := by
  refine ⟨?_, ?_, ?_, ?_, ?_⟩
  · intro h1 h2 h3
    simp only [addPriceCandidate]
    rw [if_neg (show ¬((upperStr cur == "RM") = true) from fun hbeq => h3 (eq_of_beq hbeq))]
    rw [if_pos (show (!(upperStr cur).data.isEmpty && (upperStr cur != "MYR")) = true by
      rw [str_data_isEmpty_false h1, bne_iff_ne.mpr h2]; rfl)]
  · intro h
    simp only [addPriceCandidate]
    split_ifs <;>
      first
        | rfl
        | (exact absurd h (fun hh =>
            (by assumption : ¬(True ∧ coercePriceValue a > 100000)) ⟨trivial, hh⟩))
  · intro h
    simp only [addPriceCandidate]
    split_ifs <;>
      first
        | rfl
        | (exact absurd h (fun hh =>
            (by assumption : ¬(True ∧ coercePriceValue a < 10000)) ⟨trivial, hh⟩))
  · intro hskip
    simp only [processDomText]
    by_cases hempty : txt.data.isEmpty = true
    · rw [if_pos hempty]
    · rw [if_neg hempty]
      by_cases h1 : (domSkipTerms.any fun term => strHasSub (lowerStr txt) term) = true
      · rw [if_pos h1]
      · rcases hskip with h | h | h
        · exact absurd h h1
        · rw [if_neg h1, if_pos (show (strHasSub (lowerStr txt) "deposit"
            || strHasSub (lowerStr txt) "booking") = true by rw [h]; rfl)]
        · rw [if_neg h1, if_pos (show (strHasSub (lowerStr txt) "deposit"
            || strHasSub (lowerStr txt) "booking") = true by rw [h]; simp)]
  · intro hne hall
    cases hc : cands with
    | nil => exact absurd hc hne
    | cons c0 rest =>
      subst hc
      refine ⟨?_, ?_, ?_⟩
      · intro hr
        subst hr
        exact selectPrice_sale_dom c0 rest hall
      · intro hr hh
        subst hr
        exact selectPrice_rent_hinted c0 rest hall hh
      · intro hr hnone
        subst hr
        exact selectPrice_rent_unhinted c0 rest hall hnone

theorem processDomText_pick (isRent : Bool) (st : PriceState) (txt : String)
    (a0 : ℚ) (rest : List ℚ)
    (hne : txt.data.isEmpty = false)
    (hskip : (domSkipTerms.any fun term => strHasSub (lowerStr txt) term) = false)
    (hdb : (strHasSub (lowerStr txt) "deposit" || strHasSub (lowerStr txt) "booking") = false)
    (hamt : (headPriceAmounts txt).filter (fun a => a ≠ 0) = a0 :: rest) :
    processDomText isRent st txt =
      addPriceCandidate isRent st
        (some (if isRent then a0 else (a0 :: rest).foldl max a0))
        "MYR" "dom.rm" 2 (rentHintRe txt || strHasSub (lowerStr txt) "for rent") := by
  simp only [processDomText, hne, hskip, hdb, hamt, Bool.false_eq_true, if_false]

theorem addPriceCandidate_appends (isRent : Bool) (st : PriceState) (a : ℚ)
    (src : String) (prio : ℕ) (hint : Bool)
    (hden : a.den = 1) (hpos : ¬ a ≤ 0)
    (hrb : ¬ (isRent = true ∧ a > 100000))
    (hsb : ¬ (isRent = false ∧ a < 10000)) :
    addPriceCandidate isRent st (some a) "MYR" src prio hint =
      { cands := st.cands ++ [⟨a, "MYR", src, prio, hint, st.order⟩],
        order := st.order + 1 } := by
  have hc : coercePriceValue a = a := coercePriceValue_den_one a hden
  simp only [addPriceCandidate, hc]
  rw [if_neg (by decide), if_neg hpos, if_neg hrb, if_neg hsb]

/-- C2 counterexample: a rent page whose two DOM headline texts are
`"RM 2,000"` and `"RM 500"` (neither carrying a rent hint) resolves to
2000 — the earliest-collected amount — although 500 is the smallest
plausible amount on the page, refuting "always the smallest plausible
amount" for rent pages. -/
theorem C2_rent_smallest_counterexample :
    extractPriceDom true ["RM 2,000", "RM 500"] = ("MYR", some 2000, "dom.rm") ∧
    ¬ ((2000 : ℚ) ≤ 500) := by
  constructor
  · have h1 : processDomText true emptyPriceState "RM 2,000"
        = addPriceCandidate true emptyPriceState (some 2000) "MYR" "dom.rm" 2 false := by
      rw [processDomText_pick true emptyPriceState "RM 2,000" 2000 []
        (by decide) (by decide) (by decide) (by decide)]
      rfl
    have h2 : addPriceCandidate true emptyPriceState (some 2000) "MYR" "dom.rm" 2 false
        = ⟨[⟨2000, "MYR", "dom.rm", 2, false, 0⟩], 1⟩ := by
      rw [addPriceCandidate_appends true emptyPriceState 2000 "dom.rm" 2 false
        (by decide) (by decide) (by decide) (by decide)]
      rfl
    have h3 : processDomText true (⟨[⟨2000, "MYR", "dom.rm", 2, false, 0⟩], 1⟩ : PriceState) "RM 500"
        = addPriceCandidate true ⟨[⟨2000, "MYR", "dom.rm", 2, false, 0⟩], 1⟩ (some 500) "MYR" "dom.rm" 2 false := by
      rw [processDomText_pick true ⟨[⟨2000, "MYR", "dom.rm", 2, false, 0⟩], 1⟩ "RM 500" 500 []
        (by decide) (by decide) (by decide) (by decide)]
      rfl
    have h4 : addPriceCandidate true (⟨[⟨2000, "MYR", "dom.rm", 2, false, 0⟩], 1⟩ : PriceState) (some 500) "MYR" "dom.rm" 2 false
        = ⟨[⟨2000, "MYR", "dom.rm", 2, false, 0⟩, ⟨500, "MYR", "dom.rm", 2, false, 1⟩], 2⟩ := by
      rw [addPriceCandidate_appends true ⟨[⟨2000, "MYR", "dom.rm", 2, false, 0⟩], 1⟩ 500 "dom.rm" 2 false
        (by decide) (by decide) (by decide) (by decide)]
      rfl
    have hfold : collectDomCands true ["RM 2,000", "RM 500"]
        = ⟨[⟨2000, "MYR", "dom.rm", 2, false, 0⟩, ⟨500, "MYR", "dom.rm", 2, false, 1⟩], 2⟩ := by
      show processDomText true (processDomText true emptyPriceState "RM 2,000") "RM 500" = _
      rw [h1, h2, h3, h4]
    show selectPrice true (collectDomCands true ["RM 2,000", "RM 500"]).cands = _
    rw [hfold]
    decide
  · decide

/-- C2 witness for `C2_price_resolution`: a USD-labelled candidate is
dropped; a 200000 rent candidate and a 500 sale candidate are dropped by the
bounds; a "booking" headline is skipped; and on a sale page with DOM
candidates 2000 and 3000 the selection returns the largest, 3000. -/
theorem C2_price_resolution_witness :
    (addPriceCandidate false emptyPriceState (some 50000) "USD" "head.title" 2 false = emptyPriceState) ∧
    (addPriceCandidate true emptyPriceState (some 200000) "MYR" "dom.rm" 2 false = emptyPriceState) ∧
    (addPriceCandidate false emptyPriceState (some 500) "MYR" "dom.rm" 2 false = emptyPriceState) ∧
    (processDomText false emptyPriceState "booking fee RM 500" = emptyPriceState) ∧
    (∃ w ∈ [(⟨2000, "MYR", "dom.rm", 2, false, 0⟩ : PriceCand), ⟨3000, "MYR", "dom.rm", 2, false, 1⟩],
        selectPrice false [⟨2000, "MYR", "dom.rm", 2, false, 0⟩, ⟨3000, "MYR", "dom.rm", 2, false, 1⟩]
          = (w.currency, some w.amount, w.source) ∧
        ∀ c ∈ [(⟨2000, "MYR", "dom.rm", 2, false, 0⟩ : PriceCand), ⟨3000, "MYR", "dom.rm", 2, false, 1⟩],
          c.amount ≤ w.amount) := by
  refine ⟨?_, ?_, ?_, ?_, ?_⟩
  · exact (C2_price_resolution emptyPriceState 50000 "USD" "head.title" "x" 2 false false []).1
      (by decide) (by decide) (by decide)
  · exact (C2_price_resolution emptyPriceState 200000 "MYR" "dom.rm" "x" 2 false false []).2.1
      (by rw [coercePriceValue_den_one 200000 (by decide)]; decide)
  · exact (C2_price_resolution emptyPriceState 500 "MYR" "dom.rm" "x" 2 false false []).2.2.1
      (by rw [coercePriceValue_den_one 500 (by decide)]; decide)
  · exact (C2_price_resolution emptyPriceState 0 "" "" "booking fee RM 500" 2 false false []).2.2.2.1
      (Or.inr (Or.inr (by decide)))
  · exact ((C2_price_resolution emptyPriceState 0 "" "" "" 2 false false
        [⟨2000, "MYR", "dom.rm", 2, false, 0⟩, ⟨3000, "MYR", "dom.rm", 2, false, 1⟩]).2.2.2.2
      (by decide) (by decide)).1 rfl
